import Mathlib

set_option maxRecDepth 8192

/-!
Verification development for the Kolosal chat/tool-call core.

This file gives a shallow embedding, in Lean 4, of the data model and the
operations of the repository's chat-session manager and tool-call engine:

* `src/include/chat/chat_history.hpp` — `Message`, `ChatHistory` and their
  JSON (de)serialization, plus the timestamp string format;
* `src/include/chat/tool.hpp`        — `ToolCall`, `ToolResult` and the
  `ToolCall` JSON (de)serialization;
* `src/include/chat/chat_manager.hpp` — the `ChatManager` store state and its
  chat/message/job operations;
* `src/include/agent/tool_manager.hpp` — the `ToolManager` transport
  configuration state, `executeTools`/`executeToolCall` and
  `autoConvertValue`.

Machine integers are modelled as `Int`/`Nat` (no overflow is exercised by the
statements below), C++ exceptions as `Except`/`Option`, and the JSON library
as the inductive `JVal`.  Statefulness is explicit state passing; the wall
clock (`std::time(nullptr)`) is an explicit `now` argument.
-/

/-- Model of an IEEE double produced by `std::stod`: either a finite value
(carried exactly as a rational; decimal-to-binary rounding is abstracted
away, only the class of the value matters to the claims), an infinity, or
a NaN. -/
inductive FloatVal where
  | finite (q : Rat)
  | inf (neg : Bool)
  | nan
deriving DecidableEq, Repr

/-- Model of an `nlohmann::json` / `mcp::json` value.  An object is a list of
key-value pairs in iteration order (for `nlohmann::json` that order is
key-sorted, since objects are backed by `std::map`; all objects built below
are emitted in key-sorted order). -/
inductive JVal where
  | jnull
  | jbool (b : Bool)
  | jint (n : Int)
  | jfloat (v : FloatVal)
  | jstr (s : String)
  | jarr (elems : List JVal)
  | jobj (fields : List (String × JVal))

/-- Association-list lookup used by the `JVal` object accessor. -/
def jfieldsLookup : List (String × JVal) → String → Option JVal
  | [], _ => none
  | (k, v) :: rest, key => if k = key then some v else jfieldsLookup rest key

/-- Model of `json::at(key)`: returns the member of an object, and fails
(`nlohmann` throws) on a missing key or a non-object value. -/
def JVal.lookup : JVal → String → Option JVal
  | .jobj fields, key => jfieldsLookup fields key
  | _, _ => none

/-- Model of `json::get<std::string>()`: succeeds only on a string value. -/
def JVal.getStr? : JVal → Option String
  | .jstr s => some s
  | _ => none

/-- Model of `json::get<int>()` (and of `get<long long>` style accessors):
succeeds only on an integral number value. -/
def JVal.getInt? : JVal → Option Int
  | .jint n => some n
  | _ => none

/-- Model of `json::get<bool>()`: succeeds only on a boolean value. -/
def JVal.getBool? : JVal → Option Bool
  | .jbool b => some b
  | _ => none

/-- Model of `json::get<size_t>()`: an integral number that must be
non-negative. -/
def JVal.getNat? : JVal → Option Nat
  | .jint n => if 0 ≤ n then some n.toNat else none
  | _ => none

/-- Names of the members of a serialized object, in emission order. -/
def JVal.fieldNames : JVal → List String
  | .jobj fields => fields.map Prod.fst
  | _ => []

namespace Chat

/-! ### Decimal digit rendering and parsing

Support for the `"%Y-%m-%d %H:%M:%S"` timestamp format of
`timePointToString` / `stringToTimePoint` (src/include/chat/chat_history.hpp,
lines 16-32). -/

/-- Character for a single decimal digit. -/
def digitChar : Nat → Char
  | 0 => '0' | 1 => '1' | 2 => '2' | 3 => '3' | 4 => '4'
  | 5 => '5' | 6 => '6' | 7 => '7' | 8 => '8' | _ => '9'

/-- Numeric value of a decimal digit character. -/
def digitVal (c : Char) : Nat := c.toNat - 48

/-- Little-endian decimal digits of `n`, with explicit fuel (`fuel = n`
suffices) so the definition is structural and kernel-computable. -/
def digitsRevAux : Nat → Nat → List Nat
  | 0, _ => []
  | fuel + 1, n => if n = 0 then [] else n % 10 :: digitsRevAux fuel (n / 10)

/-- Little-endian decimal digits of a natural number (empty for 0). -/
def digitsRev (n : Nat) : List Nat := digitsRevAux n n

/-- Decimal rendering of a natural number, most significant digit first
(empty for 0; zero-padding supplies the digits in that case). -/
def renderNat (n : Nat) : List Char := ((digitsRev n).map digitChar).reverse

/-- Left-pad with zero characters to the given width, as the `std::put_time`
two- and four-digit fields do. -/
def padZeros (w : Nat) (cs : List Char) : List Char :=
  List.replicate (w - cs.length) '0' ++ cs

/-- Two-digit zero-padded field (`%m`, `%d`, `%H`, `%M`, `%S`). -/
def pad2 (n : Nat) : List Char := padZeros 2 (renderNat n)

/-- Four-digit year field (`%Y`). -/
def pad4 (n : Nat) : List Char := padZeros 4 (renderNat n)

/-- Longest run of decimal digit characters at the head of the list, with the
remainder; models how `std::get_time` consumes a numeric field up to the next
non-digit. -/
def takeDigits : List Char → List Char × List Char
  | [] => ([], [])
  | c :: cs =>
    if c.isDigit then
      let p := takeDigits cs
      (c :: p.1, p.2)
    else ([], c :: cs)

/-- Numeric value of a digit run (most significant digit first). -/
def parseDigits (ds : List Char) : Nat := Nat.ofDigits 10 ((ds.map digitVal).reverse)

/-- Either the list is empty or its head is not a decimal digit: the shape of
the remainder after a numeric field. -/
def HeadNotDigit : List Char → Prop
  | [] => True
  | c :: _ => c.isDigit = false

/-- Model of the broken-down local time `std::tm` that `timePointToString`
formats and `stringToTimePoint` parses.  The embedding identifies a
`std::chrono::system_clock::time_point` with its (normalized) broken-down
local calendar fields, collapsing the mutually inverse `localtime`/`mktime`
pair; `year` is the already-offset `tm_year + 1900` and `month` the
already-offset `tm_mon + 1`. -/
structure Tm where
  year : Nat
  month : Nat
  day : Nat
  hour : Nat
  minute : Nat
  second : Nat
deriving DecidableEq, Repr

/-- Normalized broken-down times in the region where the two- and four-digit
stream fields of `std::put_time`/`std::get_time` are faithful to the model
(each field fits its fixed-width conversion). -/
def Tm.Valid (t : Tm) : Prop :=
  1000 ≤ t.year ∧ t.year ≤ 9999 ∧ 1 ≤ t.month ∧ t.month ≤ 12 ∧
    1 ≤ t.day ∧ t.day ≤ 31 ∧ t.hour ≤ 23 ∧ t.minute ≤ 59 ∧ t.second ≤ 60

instance (t : Tm) : Decidable t.Valid :=
  inferInstanceAs (Decidable (_ ∧ _ ∧ _ ∧ _ ∧ _ ∧ _ ∧ _ ∧ _ ∧ _))

/-- Embedding of `timePointToString` (chat_history.hpp, lines 16-23):
`std::put_time(&tm, "%Y-%m-%d %H:%M:%S")`. -/
def timePointToString (t : Tm) : String :=
  String.mk
    (pad4 t.year ++ ('-' :: (pad2 t.month ++ ('-' :: (pad2 t.day ++
      (' ' :: (pad2 t.hour ++ (':' :: (pad2 t.minute ++ (':' :: pad2 t.second))))))))))

/-- Expect one specific literal character, as the separators of the
`std::get_time` format string do. -/
def expectChar (c : Char) : List Char → Option (List Char)
  | [] => none
  | x :: xs => if x = c then some xs else none

/-- Read one numeric field: at least one digit, consumed up to the next
non-digit character. -/
def readNumField (cs : List Char) : Option (Nat × List Char) :=
  match takeDigits cs with
  | ([], _) => none
  | (d :: ds, rest) => some (parseDigits (d :: ds), rest)

/-- Parsing of the `"%Y-%m-%d %H:%M:%S"` format; trailing characters are
ignored, as a `std::istringstream` extraction would. -/
def parseTmChars (cs : List Char) : Option Tm := do
  let (y, r) ← readNumField cs
  let r ← expectChar '-' r
  let (mo, r) ← readNumField r
  let r ← expectChar '-' r
  let (d, r) ← readNumField r
  let r ← expectChar ' ' r
  let (h, r) ← readNumField r
  let r ← expectChar ':' r
  let (mi, r) ← readNumField r
  let r ← expectChar ':' r
  let (s, _) ← readNumField r
  pure ⟨y, mo, d, h, mi, s⟩

/-- Value `stringToTimePoint` produces when `std::get_time` fails: the
zero-initialized `std::tm` is handed to `mktime` unchanged (the source does
not check the stream state), which corresponds to year 1900. -/
def tmParseFallback : Tm := ⟨1900, 1, 0, 0, 0, 0⟩

/-- Embedding of `stringToTimePoint` (chat_history.hpp, lines 25-32). -/
def stringToTimePoint (s : String) : Tm :=
  (parseTmChars s.data).getD tmParseFallback

/-! ### Message and ChatHistory (src/include/chat/chat_history.hpp) -/

/-- Embedding of `Chat::Message` (chat_history.hpp, lines 34-59).  The struct
holds exactly the fields `id`, `isLiked`, `isDisliked`, `role`, `content`
and `timestamp`. -/
structure Message where
  id : Int
  isLiked : Bool
  isDisliked : Bool
  role : String
  content : String
  timestamp : Tm
deriving DecidableEq, Repr

/-- Embedding of the `Message` constructor (chat_history.hpp, lines 43-58):
the member initializer for `role` keeps the argument when it equals
`"user"` or `"assistant"` and otherwise throws
`std::invalid_argument("Invalid role: " + role)`; the throw is modelled by
`Except.error` carrying the exception text. -/
def Message.make (id : Int) (role : String) (content : String)
    (isLiked : Bool) (isDisliked : Bool) (timestamp : Tm) :
    Except String Message :=
  if role = "user" ∨ role = "assistant" then
    .ok ⟨id, isLiked, isDisliked, role, content, timestamp⟩
  else
    .error ("Invalid role: " ++ role)

/-- Embedding of `to_json(json&, const Message&)` (chat_history.hpp,
lines 61-70). -/
def Message.toJson (m : Message) : JVal :=
  .jobj
    [("id", .jint m.id),
     ("isLiked", .jbool m.isLiked),
     ("isDisliked", .jbool m.isDisliked),
     ("role", .jstr m.role),
     ("content", .jstr m.content),
     ("timestamp", .jstr (timePointToString m.timestamp))]

/-- Embedding of `from_json(const json&, Message&)` (chat_history.hpp,
lines 72-81); a missing member or a wrong member type makes `nlohmann`
throw, modelled by `none`.  No role validation happens here. -/
def Message.fromJson? (j : JVal) : Option Message := do
  let id ← (← j.lookup "id").getInt?
  let isLiked ← (← j.lookup "isLiked").getBool?
  let isDisliked ← (← j.lookup "isDisliked").getBool?
  let role ← (← j.lookup "role").getStr?
  let content ← (← j.lookup "content").getStr?
  let tsStr ← (← j.lookup "timestamp").getStr?
  pure ⟨id, isLiked, isDisliked, role, content, stringToTimePoint tsStr⟩

/-- Embedding of `Chat::ChatHistory` (chat_history.hpp, lines 83-100). -/
structure ChatHistory where
  id : Int
  lastModified : Int
  name : String
  messages : List Message
deriving DecidableEq, Repr

/-- Embedding of `to_json(json&, const ChatHistory&)` (chat_history.hpp,
lines 102-109). -/
def ChatHistory.toJson (c : ChatHistory) : JVal :=
  .jobj
    [("id", .jint c.id),
     ("lastModified", .jint c.lastModified),
     ("name", .jstr c.name),
     ("messages", .jarr (c.messages.map Message.toJson))]

/-- Model of `json::get_to<std::vector<Message>>`: the value must be an
array and every element must deserialize. -/
def messagesFromJson? (j : JVal) : Option (List Message) :=
  match j with
  | .jarr elems => elems.mapM Message.fromJson?
  | _ => none

/-- Embedding of `from_json(const json&, ChatHistory&)` (chat_history.hpp,
lines 111-117). -/
def ChatHistory.fromJson? (j : JVal) : Option ChatHistory := do
  let id ← (← j.lookup "id").getInt?
  let lastModified ← (← j.lookup "lastModified").getInt?
  let name ← (← j.lookup "name").getStr?
  let messages ← messagesFromJson? (← j.lookup "messages")
  pure ⟨id, lastModified, name, messages⟩

/-! ### ToolCall and ToolResult (src/include/chat/tool.hpp) -/

/-- Embedding of `Chat::ToolCall` (tool.hpp, lines 12-30).  The
`std::map<std::string, std::string>` member is modelled as its entry list in
key order (the `std::map` invariant: keys strictly increasing). -/
structure ToolCall where
  func_name : String
  params : List (String × String)
  start_index : Nat
  end_index : Nat
  output : String
deriving DecidableEq, Repr

/-- Entry list of a well-formed `std::map<std::string, std::string>`: keys
strictly increasing. -/
def ParamsSorted (l : List (String × String)) : Prop :=
  l.Chain' (fun a b => a.1 < b.1)

instance : IsTrans (String × String) (fun a b => a.1 < b.1) :=
  ⟨fun _ _ _ h1 h2 => lt_trans h1 h2⟩

/-- Embedding of `to_json(json&, const ToolCall&)` (tool.hpp, lines 33-42);
the params map serializes to an object with one string member per entry, in
the map's (key-sorted) iteration order. -/
def ToolCall.toJson (t : ToolCall) : JVal :=
  .jobj
    [("func_name", .jstr t.func_name),
     ("params", .jobj (t.params.map (fun p => (p.1, .jstr p.2)))),
     ("start_index", .jint (Int.ofNat t.start_index)),
     ("end_index", .jint (Int.ofNat t.end_index)),
     ("output", .jstr t.output)]

/-- Ordered insert-or-assign on a key-sorted entry list: the `std::map`
insertion that `json::get_to<std::map<std::string, std::string>>` performs
for each JSON object member. -/
def mapInsertStr : List (String × String) → String → String → List (String × String)
  | [], k, v => [(k, v)]
  | (k0, v0) :: rest, k, v =>
    if k < k0 then (k, v) :: (k0, v0) :: rest
    else if k = k0 then (k, v) :: rest
    else (k0, v0) :: mapInsertStr rest k v

/-- Model of `json::get<std::map<std::string, std::string>>`: every member
must be a string, and the members are inserted into the map in iteration
order. -/
def paramsFromJson? (j : JVal) : Option (List (String × String)) :=
  match j with
  | .jobj fields => do
    let entries ← fields.mapM (fun kv => do
      let s ← kv.2.getStr?
      pure (kv.1, s))
    pure (entries.foldl (fun m kv => mapInsertStr m kv.1 kv.2) [])
  | _ => none

/-- Embedding of `from_json(const json&, ToolCall&)` (tool.hpp,
lines 45-52). -/
def ToolCall.fromJson? (j : JVal) : Option ToolCall := do
  let fn ← (← j.lookup "func_name").getStr?
  let params ← paramsFromJson? (← j.lookup "params")
  let si ← (← j.lookup "start_index").getNat?
  let ei ← (← j.lookup "end_index").getNat?
  let output ← (← j.lookup "output").getStr?
  pure ⟨fn, params, si, ei, output⟩

/-- Embedding of `Chat::ToolResult` (tool.hpp, lines 54-70). -/
structure ToolResult where
  toolCall : ToolCall
  result : String
  success : Bool
  error : String
deriving DecidableEq, Repr

/-! ### ToolManager (src/include/agent/tool_manager.hpp)

Embedding of the transport-configuration state machine
(`setClientType`/`setSseEndpoint`/`setStdioCommand`, lines 128-175), of the
parameter coercion `autoConvertValue` (lines 510-544) and of
`executeToolCall`/`executeTools` (lines 213-223 and 547-592).  The MCP
clients themselves live outside the repository; `executeToolCall` takes the
transport as an explicit oracle argument. -/

/-- C `isspace` in the default locale: space and the control characters
`\t`, `\n`, `\v`, `\f`, `\r` (codes 9-13). -/
def isCSpace (c : Char) : Bool := c == ' ' || (9 ≤ c.toNat && c.toNat ≤ 13)

/-- Embedding of `ToolManager::trimString` (agent/tool_manager.hpp,
lines 498-508): erase leading and trailing `isspace` characters. -/
def trimChars (cs : List Char) : List Char :=
  ((cs.dropWhile isCSpace).reverse.dropWhile isCSpace).reverse

/-- Embedding of `stripQuotes` behaviour inside `autoConvertValue`
(lines 523-525): when the value has length at least 2 and both the first and
the last character are a double quote, both are removed. -/
def stripQuotes (cs : List Char) : List Char :=
  if 2 ≤ cs.length ∧ cs.head? = some '"' ∧ cs.getLast? = some '"' then
    (cs.drop 1).dropLast
  else cs

/-- Model of `std::stoll` in base 10 (`strtoll` semantics): skip whitespace,
an optional single sign, then at least one decimal digit; the value is read
from the digit run (trailing characters are ignored); no digit at all
(`std::invalid_argument`) or a value outside the signed 64-bit range
(`std::out_of_range`) is a thrown exception, modelled by `none`. -/
def stollParse (cs : List Char) : Option Int :=
  let cs1 := cs.dropWhile isCSpace
  let p : Bool × List Char :=
    match cs1 with
    | '-' :: r => (true, r)
    | '+' :: r => (false, r)
    | _ => (false, cs1)
  match takeDigits p.2 with
  | ([], _) => none
  | (d :: ds, _) =>
    let v : Int := Int.ofNat (parseDigits (d :: ds))
    let v := if p.1 then -v else v
    if -(2 ^ 63) ≤ v ∧ v ≤ 2 ^ 63 - 1 then some v else none

/-- Hexadecimal digit test, as `strtod` accepts in a `0x` significand. -/
def isHexDigit (c : Char) : Bool :=
  c.isDigit || ('a' ≤ c && c ≤ 'f') || ('A' ≤ c && c ≤ 'F')

/-- Value of a hexadecimal digit character. -/
def hexVal (c : Char) : Nat :=
  if c.isDigit then c.toNat - 48
  else if 'a' ≤ c && c ≤ 'f' then c.toNat - 87
  else c.toNat - 55

/-- Longest run of hexadecimal digits at the head of the list. -/
def takeHexDigits : List Char → List Char × List Char
  | [] => ([], [])
  | c :: cs =>
    if isHexDigit c then
      let p := takeHexDigits cs
      (c :: p.1, p.2)
    else ([], c :: cs)

/-- Numeric value of a hexadecimal digit run. -/
def parseHexDigits (ds : List Char) : Nat :=
  Nat.ofDigits 16 ((ds.map hexVal).reverse)

/-- ASCII lower-casing, for the case-insensitive `inf`/`nan` forms of
`strtod`. -/
def toLowerAscii (c : Char) : Char :=
  if 'A' ≤ c && c ≤ 'Z' then Char.ofNat (c.toNat + 32) else c

/-- Case-insensitive test that `cs` starts with the word `w`. -/
def startsWithCI (cs : List Char) (w : List Char) : Bool :=
  decide ((cs.take w.length).map toLowerAscii = w)

/-- Largest finite double, `DBL_MAX` = (2 - 2^-52) * 2^1023, as the integer
2^1024 - 2^971. -/
def dblMaxInt : Int := ((2 ^ 1024 - 2 ^ 971 : Nat) : Int)

/-- Optional exponent part of a `strtod` literal: an `e`/`p` exponent whose
digits are missing is not consumed, leaving exponent 0. -/
def expVal (cs : List Char) : Int :=
  let p : Bool × List Char :=
    match cs with
    | '-' :: r => (true, r)
    | '+' :: r => (false, r)
    | _ => (false, cs)
  match takeDigits p.2 with
  | ([], _) => 0
  | (d :: ds, _) =>
    let v : Int := Int.ofNat (parseDigits (d :: ds))
    if p.1 then -v else v

/-- Exact value `(sign) mant * base ^ e` as a checked rational: `none` when
the magnitude exceeds `DBL_MAX` (`std::out_of_range`).  Numerator and
denominator are assembled with integer arithmetic and normalized by
`mkRat`. -/
def scaledRat (neg : Bool) (mantNum : Nat) (mantDen : Nat) (base : Nat)
    (e : Int) : Option FloatVal :=
  let num : Nat := if 0 ≤ e then mantNum * base ^ e.toNat else mantNum
  let den : Nat := if 0 ≤ e then mantDen else mantDen * base ^ (-e).toNat
  if dblMaxInt * (den : Int) < (num : Int) then none
  else
    some (.finite (if neg then -(mkRat (num : Int) den) else mkRat (num : Int) den))

/-- Decimal form of a `strtod` literal: digits with an optional fraction and
an optional decimal exponent.  The finite value is carried exactly as a
rational (IEEE rounding abstracted); a magnitude beyond `DBL_MAX`
(`std::out_of_range`) is `none`. -/
def decParse (neg : Bool) (cs : List Char) : Option FloatVal :=
  let ipp := takeDigits cs
  let fpp : List Char × List Char :=
    match ipp.2 with
    | '.' :: r => takeDigits r
    | _ => ([], ipp.2)
  if ipp.1.isEmpty && fpp.1.isEmpty then none
  else
    let mantNum := parseDigits ipp.1 * 10 ^ fpp.1.length + parseDigits fpp.1
    let e : Int :=
      match fpp.2 with
      | c :: r => if c == 'e' || c == 'E' then expVal r else 0
      | [] => 0
    scaledRat neg mantNum (10 ^ fpp.1.length) 10 e

/-- Hexadecimal form of a `strtod` literal (after a leading `0x`/`0X`):
hexadecimal digits with an optional hexadecimal fraction and an optional
binary (`p`) exponent.  With no hexadecimal digit at all, `strtod` only
consumed the leading `0`, so the value is 0. -/
def hexParse (neg : Bool) (cs : List Char) : Option FloatVal :=
  let ipp := takeHexDigits cs
  let fpp : List Char × List Char :=
    match ipp.2 with
    | '.' :: r => takeHexDigits r
    | _ => ([], ipp.2)
  if ipp.1.isEmpty && fpp.1.isEmpty then some (.finite 0)
  else
    let mantNum := parseHexDigits ipp.1 * 16 ^ fpp.1.length + parseHexDigits fpp.1
    let e : Int :=
      match fpp.2 with
      | c :: r => if c == 'p' || c == 'P' then expVal r else 0
      | [] => 0
    scaledRat neg mantNum (16 ^ fpp.1.length) 2 e

/-- Model of `std::stod` (`strtod` semantics): skip whitespace, an optional
sign, then an `inf`/`infinity` or `nan` word (case-insensitive), a
hexadecimal literal, or a decimal literal; trailing characters are ignored;
no parseable value (`std::invalid_argument`) or an overflowing magnitude
(`std::out_of_range`) is `none`.  Underflow-to-subnormal `ERANGE` behaviour
is implementation-defined and not modelled. -/
def stodParse (cs : List Char) : Option FloatVal :=
  let cs1 := cs.dropWhile isCSpace
  let p : Bool × List Char :=
    match cs1 with
    | '-' :: r => (true, r)
    | '+' :: r => (false, r)
    | _ => (false, cs1)
  if startsWithCI p.2 "infinity".data || startsWithCI p.2 "inf".data then some (.inf p.1)
  else if startsWithCI p.2 "nan".data then some .nan
  else
    match p.2 with
    | '0' :: x :: rest =>
      if x == 'x' || x == 'X' then hexParse p.1 rest else decParse p.1 p.2
    | _ => decParse p.1 p.2

/-- Integer-shape guard of `autoConvertValue` (lines 529-533): no decimal
point, and every character a digit or a sign. -/
def intShaped (cs : List Char) : Bool :=
  !cs.contains '.' && cs.all (fun c => c.isDigit || c == '-' || c == '+')

/-- Embedding of `ToolManager::autoConvertValue` (agent/tool_manager.hpp,
lines 510-544): trim; the exact words `true`/`false`/`null` become
boolean/null; then surrounding matching double quotes are stripped; then the
integer attempt (guard plus `stoll`) or otherwise the `stod` attempt; any
conversion exception falls back to the (trimmed, quote-stripped) string. -/
def autoConvertValue (value : String) : JVal :=
  let trimmed := trimChars value.data
  if trimmed = "true".data then .jbool true
  else if trimmed = "false".data then .jbool false
  else if trimmed = "null".data then .jnull
  else
    let trimmed := stripQuotes trimmed
    if intShaped trimmed then
      match stollParse trimmed with
      | some v => .jint v
      | none => .jstr (String.mk trimmed)
    else
      match stodParse trimmed with
      | some fv => .jfloat fv
      | none => .jstr (String.mk trimmed)

/-- Embedding of `Chat::ClientType` (agent/tool_manager.hpp, lines 19-22). -/
inductive ClientType where
  | SSE
  | Stdio
deriving DecidableEq, Repr

/-- Tool advertised by an MCP server (`mcp::tool`): name, description and a
JSON parameter schema. -/
structure McpTool where
  name : String
  description : String
  parametersSchema : JVal

/-- Configuration and connection state of `ToolManager`
(agent/tool_manager.hpp, lines 594-613).  The `unique_ptr` client members
are modelled by presence flags; `m_stdioEnvVars` (an `mcp::json` object of
environment variables) is modelled as its entry list, with the structural
equality the `!=` on line 166 uses. -/
structure ToolManagerState where
  clientType : ClientType
  sseHost : String
  ssePort : Int
  timeout : Int
  stdioCommand : String
  stdioEnvVars : List (String × String)
  sseClientPresent : Bool
  stdioClientPresent : Bool
  availableTools : List McpTool
  initialized : Bool

/-- State built by the private `ToolManager` constructor (lines 430-440). -/
def toolManagerInit : ToolManagerState :=
  { clientType := .SSE, sseHost := "localhost", ssePort := 8888, timeout := 10,
    stdioCommand := "", stdioEnvVars := [], sseClientPresent := false,
    stdioClientPresent := false, availableTools := [], initialized := false }

/-- Embedding of `ToolManager::setClientType` (lines 128-140). -/
def setClientType (st : ToolManagerState) (type : ClientType) : ToolManagerState :=
  if st.clientType ≠ type then
    { st with clientType := type, initialized := false, availableTools := [] }
  else st

/-- Embedding of `ToolManager::isInitialized` (line 147). -/
def isInitialized (st : ToolManagerState) : Bool := st.initialized

/-- Embedding of `ToolManager::setSseEndpoint` (lines 150-161): the client
is reset and `m_initialized` cleared only when the active client type is
SSE. -/
def setSseEndpoint (st : ToolManagerState) (host : String) (port : Int) :
    ToolManagerState :=
  if st.sseHost ≠ host ∨ st.ssePort ≠ port then
    let st1 := { st with sseHost := host, ssePort := port }
    if st1.clientType = ClientType.SSE then
      { st1 with sseClientPresent := false, initialized := false }
    else st1
  else st

/-- Embedding of `ToolManager::setStdioCommand` (lines 164-175): the client
is reset and `m_initialized` cleared only when the active client type is
STDIO. -/
def setStdioCommand (st : ToolManagerState) (command : String)
    (envVars : List (String × String)) : ToolManagerState :=
  if st.stdioCommand ≠ command ∨ st.stdioEnvVars ≠ envVars then
    let st1 := { st with stdioCommand := command, stdioEnvVars := envVars }
    if st1.clientType = ClientType.Stdio then
      { st1 with stdioClientPresent := false, initialized := false }
    else st1
  else st

/-- Transport oracle: the behaviour of `m_sseClient->call_tool` or
`m_stdioClient->call_tool` for a function name and a JSON parameter object.
An `Except.error` is a thrown `std::exception` carrying its message. -/
def Transport : Type := ClientType → String → JVal → Except String JVal

/-- Embedding of `ToolManager::executeToolCall` (agent/tool_manager.hpp,
lines 547-592).  When `m_initialized` is false the failed result is returned
before any parameter conversion or transport call; otherwise the parameters
are coerced by `autoConvertValue`, the transport is invoked, and the result
text is the `text` member of the first `content` block (a missing or
non-string `text`, or a non-array or empty `content`, fails). -/
def executeToolCall (st : ToolManagerState) (transport : Transport)
    (toolCall : ToolCall) : ToolResult :=
  if !st.initialized then
    { toolCall := toolCall, result := "", success := false,
      error := "MCP client not initialized" }
  else
    let params := JVal.jobj (toolCall.params.map (fun kv => (kv.1, autoConvertValue kv.2)))
    match transport st.clientType toolCall.func_name params with
    | .error msg =>
      { toolCall := toolCall, result := "", success := false,
        error := "Tool call error: " ++ msg }
    | .ok response =>
      match response.lookup "content" with
      | some (.jarr (first :: _)) =>
        match first.lookup "text" with
        | some (.jstr s) =>
          { toolCall := toolCall, result := s, success := true, error := "" }
        | some _ =>
          { toolCall := toolCall, result := "", success := false,
            error := "Tool call error: type must be string" }
        | none =>
          { toolCall := toolCall, result := "", success := false,
            error := "Invalid response format from tool call" }
      | _ =>
        { toolCall := toolCall, result := "", success := false,
          error := "Invalid response format from tool call" }

/-- Embedding of `ToolManager::executeTools` (lines 213-223): one result per
call, in order. -/
def executeTools (st : ToolManagerState) (transport : Transport)
    (toolCalls : List ToolCall) : List ToolResult :=
  toolCalls.map (executeToolCall st transport)

/-! ### ChatManager (src/include/chat/chat_manager.hpp)

Embedding of the chat-session store.  The wall clock
(`std::time(nullptr)`) is an explicit `now : Int` argument of every
operation that reads it; persistence calls are fire-and-await side effects
with no influence on the in-memory state and are omitted (their failure can
flip a returned boolean, noted where relevant). -/

/-- Message record as the chat manager operates on it.  The manager's
`setMessageModelName` (chat_manager.hpp, line 416) writes a `modelName`
member that is absent from the `Message` struct in
src/include/chat/chat_history.hpp; that member is modelled from the spec
(`modelName: string`, assistant messages only, informational).  Only the
members the manager's operations touch are carried. -/
structure StoredMessage where
  id : Int
  role : String
  content : String
  modelName : String
deriving DecidableEq, Repr

/-- Chat record as stored by the manager: the `ChatHistory` shape over the
manager-level message record. -/
structure StoredChat where
  id : Int
  lastModified : Int
  name : String
  messages : List StoredMessage
deriving DecidableEq, Repr

/-- Placeholder used with `List.getD`; every access below is guarded by an
index bound, so the placeholder is never read. -/
def dummyChat : StoredChat := ⟨0, 0, "", []⟩

/-- Embedding of `ChatManager::ChatIndex` (chat_manager.hpp, lines 47-57). -/
structure ChatIndex where
  lastModified : Int
  index : Nat
  name : String
deriving DecidableEq, Repr

/-- Embedding of `ChatIndex::operator<` (lines 52-56): `lastModified`
descending, ties broken by `name` ascending; the `index` member does not
participate. -/
def ciLt (a b : ChatIndex) : Prop :=
  b.lastModified < a.lastModified ∨
    (a.lastModified = b.lastModified ∧ a.name < b.name)

instance (a b : ChatIndex) : Decidable (ciLt a b) :=
  inferInstanceAs (Decidable (_ ∨ _))

instance : IsTrans ChatIndex ciLt :=
  ⟨by
    intro a b c hab hbc
    unfold ciLt at *
    rcases hab with h1 | ⟨h1, h1n⟩ <;> rcases hbc with h2 | ⟨h2, h2n⟩
    · exact Or.inl (lt_trans h2 h1)
    · exact Or.inl (by omega)
    · exact Or.inl (by omega)
    · exact Or.inr ⟨by omega, lt_trans h1n h2n⟩⟩

/-- Comparator equivalence: what the `std::set` treats as one key. -/
def ciEquiv (a b : ChatIndex) : Prop :=
  a.lastModified = b.lastModified ∧ a.name = b.name

instance (a b : ChatIndex) : Decidable (ciEquiv a b) :=
  inferInstanceAs (Decidable (_ ∧ _))

/-- Model of `std::set<ChatIndex>::insert`: the set is its sorted element
list; inserting a key equivalent to a present element is a no-op. -/
def setInsert : List ChatIndex → ChatIndex → List ChatIndex
  | [], e => [e]
  | x :: xs, e =>
    if ciLt e x then e :: x :: xs
    else if ciLt x e then x :: setInsert xs e
    else x :: xs

/-- Model of `std::set<ChatIndex>::erase(key)`: removes the element
equivalent to the key, when present. -/
def setErase (l : List ChatIndex) (e : ChatIndex) : List ChatIndex :=
  l.eraseP (fun x => decide (ciEquiv x e))

/-- Lookup in the `std::unordered_map<std::string, size_t>` name index,
modelled as an association list with pairwise distinct keys. -/
def amLookup : List (String × Nat) → String → Option Nat
  | [], _ => none
  | (k, v) :: rest, key => if k = key then some v else amLookup rest key

/-- Insert-or-assign (`operator[]` followed by assignment) on the name
index. -/
def amInsert : List (String × Nat) → String → Nat → List (String × Nat)
  | [], key, v => [(key, v)]
  | (k, w) :: rest, key, v =>
    if k = key then (k, v) :: rest else (k, w) :: amInsert rest key v

/-- Key removal (`erase`) on the name index. -/
def amErase (l : List (String × Nat)) (key : String) : List (String × Nat) :=
  l.eraseP (fun kv => kv.1 == key)

/-- Lookup in the `std::unordered_map<int, int>` job map. -/
def jmLookup : List (Nat × Int) → Nat → Option Int
  | [], _ => none
  | (k, v) :: rest, key => if k = key then some v else jmLookup rest key

/-- Insert-or-assign on the job map. -/
def jmInsert : List (Nat × Int) → Nat → Int → List (Nat × Int)
  | [], key, v => [(key, v)]
  | (k, w) :: rest, key, v =>
    if k = key then (k, v) :: rest else (k, w) :: jmInsert rest key v

/-- In-memory state of the `ChatManager` singleton (chat_manager.hpp,
lines 765-773): the chat vector, the name index, the recency-sorted index
set, the current-chat selection, the position-to-job map and the collision
counter. -/
structure ManagerState where
  chats : List StoredChat
  chatNameToIndex : List (String × Nat)
  sortedIndices : List ChatIndex
  currentChatName : Option String
  currentChatIndex : Nat
  chatInferenceJobIdMap : List (Nat × Int)
  counter : Nat
deriving DecidableEq, Repr

/-- Embedding of `ChatManager::validateChatName` (lines 654-657). -/
def validateChatName (name : String) : Bool :=
  !(name.isEmpty || 256 < name.length)

/-- Decimal rendering of `std::to_string` on a non-negative value. -/
def natRepr (n : Nat) : String :=
  if n = 0 then "0" else String.mk (renderNat n)

/-- Collision candidate `name + " (" + std::to_string(counter) + ")"`
(chat_manager.hpp, line 245). -/
def mkSuffixed (name : String) (c : Nat) : String :=
  name ++ " (" ++ natRepr c ++ ")"

/-- Embedding of the name-collision loop of `createNewChat`
(lines 243-247): while the candidate is a key of the name index, switch to
the suffixed candidate and bump the counter.  The C++ loop runs until the
candidate is fresh; the fuel argument makes the model total, and
`keys.length + 2` fuel provably always suffices (the candidates are
pairwise distinct, so one of the first `keys.length + 2` is fresh). -/
def resolveUniqueName (keys : List String) (name : String) :
    String → Nat → Nat → String × Nat
  | cand, counter, 0 => (cand, counter)
  | cand, counter, fuel + 1 =>
    if cand ∈ keys then
      resolveUniqueName keys name (mkSuffixed name counter) (counter + 1) fuel
    else (cand, counter)

/-- In-place list update at an index (`m_chats[i] = ...` patterns). -/
def listModify {α : Type} : List α → Nat → (α → α) → List α
  | [], _, _ => []
  | x :: xs, 0, f => f x :: xs
  | x :: xs, i + 1, f => x :: listModify xs i f

/-- Embedding of `ChatManager::switchToChat` (lines 75-90); the global
think-toggle map it clears is rendering state, out of model. -/
def switchToChat (st : ManagerState) (name : String) : ManagerState × Bool :=
  match amLookup st.chatNameToIndex name with
  | none => (st, false)
  | some i =>
    ({ st with currentChatName := some name, currentChatIndex := i }, true)

/-- Embedding of `ChatManager::createNewChat` (lines 238-279): resolve the
name collision with the member counter, validate, append the chat, update
both indices, switch to the new chat.  The new id is
`static_cast<int>(counter) + newTimestamp` with the counter as already
bumped by the loop.  The persistence save only logs. -/
def createNewChat (st : ManagerState) (now : Int) (name : String) :
    ManagerState × Option String :=
  let keys := st.chatNameToIndex.map Prod.fst
  let r := resolveUniqueName keys name name st.counter (keys.length + 2)
  let newName := r.1
  let st1 := { st with counter := r.2 }
  if !validateChatName newName then (st1, none)
  else
    let newChat : StoredChat :=
      { id := (r.2 : Int) + now, lastModified := now, name := newName, messages := [] }
    let newIndex := st1.chats.length
    let st2 := { st1 with
      chats := st1.chats ++ [newChat],
      chatNameToIndex := amInsert st1.chatNameToIndex newName newIndex,
      sortedIndices := setInsert st1.sortedIndices ⟨now, newIndex, newName⟩ }
    ((switchToChat st2 newName).1, some newName)

/-- Embedding of `ChatManager::updateChatTimestamp` (lines 659-670): remove
the old index entry, bump the timestamp, insert the new entry. -/
def updateChatTimestamp (st : ManagerState) (chatIndex : Nat)
    (newTimestamp : Int) : ManagerState :=
  let oldTs := (st.chats.getD chatIndex dummyChat).lastModified
  let nm := (st.chats.getD chatIndex dummyChat).name
  let si := setErase st.sortedIndices ⟨oldTs, chatIndex, nm⟩
  { st with
    chats := listModify st.chats chatIndex (fun c => { c with lastModified := newTimestamp }),
    sortedIndices := setInsert si ⟨newTimestamp, chatIndex, nm⟩ }

/-- Embedding of `ChatManager::addMessageToCurrentChat` (lines 176-195):
no-op (with an error log) when no current chat is selected; otherwise bump
the timestamp through `updateChatTimestamp` and append the message. -/
def addMessageToCurrentChat (st : ManagerState) (now : Int)
    (message : StoredMessage) : ManagerState :=
  if st.currentChatName.isNone || st.chats.length ≤ st.currentChatIndex then st
  else
    let st1 := updateChatTimestamp st st.currentChatIndex now
    { st1 with
      chats := listModify st1.chats st.currentChatIndex
        (fun c => { c with messages := c.messages ++ [message] }) }

/-- Index of the first chat with the given name (the `std::find_if` scans of
the by-name message operations). -/
def findChatIdx (chats : List StoredChat) (name : String) : Option Nat :=
  chats.findIdx? (fun c => c.name == name)

/-- Embedding of the by-name `ChatManager::addMessage` (lines 386-397):
append the message and set `lastModified` directly — the sorted recency
index is not updated. -/
def addMessage (st : ManagerState) (now : Int) (chatName : String)
    (message : StoredMessage) : ManagerState :=
  match findChatIdx st.chats chatName with
  | none => st
  | some i =>
    { st with chats := (listModify st.chats i
        (fun c => { c with messages := c.messages ++ [message], lastModified := now })) }

/-- Embedding of the by-index `ChatManager::deleteMessage` (lines 361-384):
a missing chat or an out-of-range index only logs; the state is unchanged. -/
def deleteMessage (st : ManagerState) (now : Int) (chatName : String)
    (index : Int) : ManagerState :=
  match findChatIdx st.chats chatName with
  | none => st
  | some i =>
    let msgs := (st.chats.getD i dummyChat).messages
    if 0 ≤ index ∧ index < (msgs.length : Int) then
      { st with chats := (listModify st.chats i
          (fun c => { c with messages := c.messages.eraseIdx index.toNat,
                             lastModified := now })) }
    else st

/-- Embedding of `ChatManager::setMessageModelName` (lines 399-428).  The
source computes `index = it->messages.size() - 1` for index -1 BEFORE
checking `it != m_chats.end()`; when the chat is missing and the index is
-1 this dereferences the end iterator, which is undefined behaviour,
modelled by `none`.  Every defined path returns `some` of the next state. -/
def setMessageModelName (st : ManagerState) (now : Int) (chatName : String)
    (rawIndex : Int) (modelName : String) : Option ManagerState :=
  match findChatIdx st.chats chatName with
  | some i =>
    let msgs := (st.chats.getD i dummyChat).messages
    let index : Int := if rawIndex = -1 then (msgs.length : Int) - 1 else rawIndex
    if 0 ≤ index ∧ index < (msgs.length : Int) then
      some { st with chats := (listModify st.chats i
        (fun c => { c with
          messages := (listModify c.messages index.toNat
            (fun m => { m with modelName := modelName })),
          lastModified := now })) }
    else some st
  | none =>
    if rawIndex = -1 then none
    else some st

/-- Embedding of `ChatManager::setCurrentJobId` (lines 508-514). -/
def setCurrentJobId (st : ManagerState) (jobId : Int) : ManagerState × Bool :=
  ({ st with chatInferenceJobIdMap :=
      jmInsert st.chatInferenceJobIdMap st.currentChatIndex jobId }, true)

/-- Embedding of `ChatManager::getJobId` (lines 538-547): -1 for an unknown
name; otherwise `m_chatInferenceJobIdMap[index]`, whose `operator[]`
default-inserts and reads 0 when the position has no entry. -/
def getJobId (st : ManagerState) (chatName : String) : Int :=
  match amLookup st.chatNameToIndex chatName with
  | none => -1
  | some i => (jmLookup st.chatInferenceJobIdMap i).getD 0

/-- Iteration of `getChats` (lines 440-446) over the sorted index entries
with the `seenIndices` duplicate filter. -/
def getChatsGo (chats : List StoredChat) :
    List ChatIndex → List Nat → List StoredChat
  | [], _ => []
  | e :: es, seen =>
    if e.index ∈ seen then getChatsGo chats es seen
    else chats.getD e.index dummyChat :: getChatsGo chats es (e.index :: seen)

/-- Embedding of `ChatManager::getChats` (lines 431-448). -/
def getChats (st : ManagerState) : List StoredChat :=
  getChatsGo st.chats st.sortedIndices []

/-- Embedding of `ChatManager::getCurrentChat` (lines 166-174). -/
def getCurrentChat (st : ManagerState) : Option StoredChat :=
  if st.currentChatName.isNone || st.chats.length ≤ st.currentChatIndex then none
  else some (st.chats.getD st.currentChatIndex dummyChat)

/-- Name of the synthesized default chat (line 763). -/
def defaultChatName : String := "New_Chat"

/-- Chat record built by `createDefaultChat` (lines 744-761). -/
def defaultChat (now : Int) : StoredChat :=
  { id := 1, lastModified := now, name := defaultChatName, messages := [] }

/-- Embedding of `ChatManager::createDefaultChat` (lines 744-761); both call
sites guarantee the chat vector is empty, and the name index entry is set
to position 0 accordingly. -/
def createDefaultChat (st : ManagerState) (now : Int) : ManagerState :=
  { st with
    chats := st.chats ++ [defaultChat now],
    chatNameToIndex := amInsert st.chatNameToIndex defaultChatName 0,
    sortedIndices := setInsert st.sortedIndices ⟨now, 0, defaultChatName⟩,
    currentChatName := some defaultChatName,
    currentChatIndex := 0 }

/-- Embedding of `ChatManager::updateIndicesAfterDeletion` (lines 672-697):
positions greater than the removed one are decremented in the name index and
in a rebuilt sorted-index set.  The job map is NOT touched. -/
def updateIndicesAfterDeletion (st : ManagerState) (deletedIndex : Nat) :
    ManagerState :=
  let m := st.chatNameToIndex.map
    (fun kv => if deletedIndex < kv.2 then (kv.1, kv.2 - 1) else kv)
  let si := st.sortedIndices.foldl
    (fun acc e =>
      if deletedIndex < e.index then
        setInsert acc ⟨e.lastModified, e.index - 1, e.name⟩
      else if e.index < deletedIndex then setInsert acc e
      else acc) []
  { st with chatNameToIndex := m, sortedIndices := si }

/-- Embedding of `ChatManager::deleteChat` (lines 281-337): remove the chat
from the vector and both indices, shift higher positions down, then (empty
store) synthesize the default chat / (deleted the current chat) switch to
the most recent remaining chat / (current after the removed one) decrement
the current index.  The persistence `deleteChat`/`deleteKvChat` calls can
flip the returned boolean to false without undoing the in-memory removal;
they are modelled as succeeding. -/
def deleteChat (st : ManagerState) (now : Int) (name : String) :
    ManagerState × Bool :=
  match amLookup st.chatNameToIndex name with
  | none => (st, false)
  | some indexToRemove =>
    let timestamp := (st.chats.getD indexToRemove dummyChat).lastModified
    let st1 := { st with
      sortedIndices := setErase st.sortedIndices ⟨timestamp, indexToRemove, name⟩,
      chats := st.chats.eraseIdx indexToRemove,
      chatNameToIndex := amErase st.chatNameToIndex name }
    let st2 := updateIndicesAfterDeletion st1 indexToRemove
    let st3 :=
      if st2.chats.isEmpty then createDefaultChat st2 now
      else if st2.currentChatIndex = indexToRemove then
        match st2.sortedIndices.head? with
        | some mostRecent => (switchToChat st2 mostRecent.name).1
        | none => st2
      else if indexToRemove < st2.currentChatIndex then
        { st2 with currentChatIndex := st2.currentChatIndex - 1 }
      else st2
    (st3, true)

/-- State after `loadChatsAsync` (lines 705-742) completes against an empty
persistence backend: no chats load, so `createDefaultChat` runs and the
counter becomes the sorted-index size, i.e. 1. -/
def initialManagerState (now : Int) : ManagerState :=
  let st : ManagerState := ⟨[], [], [], none, 0, [], 0⟩
  let st := createDefaultChat st now
  { st with counter := st.sortedIndices.length }

/-- Operations of the recency-ordering claim that maintain the sorted index
set. -/
inductive MgrOp where
  | create (now : Int) (name : String)
  | addCur (now : Int) (message : StoredMessage)

/-- Application of one operation. -/
def applyOp (st : ManagerState) : MgrOp → ManagerState
  | .create now name => (createNewChat st now name).1
  | .addCur now message => addMessageToCurrentChat st now message

/-- Application of an operation sequence, oldest first. -/
def runOps (st : ManagerState) (ops : List MgrOp) : ManagerState :=
  ops.foldl applyOp st

/-- Recency-then-name order on chat records, the order `getChats` is claimed
to produce. -/
def chatKeyLt (a b : StoredChat) : Prop :=
  b.lastModified < a.lastModified ∨
    (a.lastModified = b.lastModified ∧ a.name < b.name)

instance (a b : StoredChat) : Decidable (chatKeyLt a b) :=
  inferInstanceAs (Decidable (_ ∨ _))

/-- Index entry a chat vector position should carry. -/
def entryOf (chats : List StoredChat) (i : Nat) : ChatIndex :=
  ⟨(chats.getD i dummyChat).lastModified, i, (chats.getD i dummyChat).name⟩

/-- Index entries of all positions of a chat vector. -/
def canonEntries (chats : List StoredChat) : List ChatIndex :=
  (List.range chats.length).map (entryOf chats)

/-- Name-index entries of all positions of a chat vector. -/
def canonMap (chats : List StoredChat) : List (String × Nat) :=
  (List.range chats.length).map (fun i => ((chats.getD i dummyChat).name, i))

/-- Boolean sortedness check for a decidable relation; kernel-computable
counterpart of `List.Chain'`. -/
def isSortedBy {α : Type} (r : α → α → Prop) [DecidableRel r] : List α → Bool
  | [] => true
  | [_] => true
  | a :: b :: rest => decide (r a b) && isSortedBy r (b :: rest)

/-- Consistency invariant tying the chat vector, the name index and the
sorted index set together: chat names are pairwise distinct, the name index
holds exactly the name-to-position entries, and the sorted index set is a
`ciLt`-sorted arrangement of exactly the per-position entries. -/
def MgrInv (st : ManagerState) : Prop :=
  (st.chats.map StoredChat.name).Nodup ∧
  st.chatNameToIndex.Perm (canonMap st.chats) ∧
  st.sortedIndices.Chain' ciLt ∧
  st.sortedIndices.Perm (canonEntries st.chats)

/-- Concrete store with two chats in which chat "B", at position 1, carries
running job 7 while chat "A" sits at position 0: the setting of the
job-association claim. -/
def jobShiftState : ManagerState :=
  { chats := [⟨100, 0, "A", []⟩, ⟨101, 5, "B", []⟩],
    chatNameToIndex := [("A", 0), ("B", 1)],
    sortedIndices := [⟨5, 1, "B"⟩, ⟨0, 0, "A"⟩],
    currentChatName := some "B", currentChatIndex := 1,
    chatInferenceJobIdMap := [(1, 7)], counter := 2 }

end Chat

/-! ## Lemmas and theorems -/

namespace Chat

/-- Bridge between the boolean sortedness check and `List.Chain'`. -/
lemma isSortedBy_iff_chain {α : Type} (r : α → α → Prop) [DecidableRel r] :
    ∀ l : List α, isSortedBy r l = true ↔ l.Chain' r
  | [] => by simp [isSortedBy]
  | [a] => by simp [isSortedBy]
  | a :: b :: rest => by
    rw [List.chain'_cons, ← isSortedBy_iff_chain r (b :: rest)]
    simp [isSortedBy]

lemma digitVal_digitChar {d : Nat} (h : d < 10) : digitVal (digitChar d) = d := by
  interval_cases d <;> rfl

lemma isDigit_digitChar {d : Nat} (h : d < 10) : (digitChar d).isDigit = true := by
  interval_cases d <;> rfl

lemma ofDigits_digitsRevAux {fuel n : Nat} (h : n ≤ fuel) :
    Nat.ofDigits 10 (digitsRevAux fuel n) = n := by
  induction fuel generalizing n with
  | zero =>
    have : n = 0 := by omega
    subst this
    simp [digitsRevAux, Nat.ofDigits_nil]
  | succ f ih =>
    unfold digitsRevAux
    by_cases h0 : n = 0
    · subst h0; simp [Nat.ofDigits_nil]
    · have hdiv : n / 10 ≤ f := by
        have : n / 10 < n := Nat.div_lt_self (Nat.pos_of_ne_zero h0) (by norm_num)
        omega
      simp only [if_neg h0]
      rw [Nat.ofDigits_cons, ih hdiv]
      omega

lemma digitsRevAux_lt {fuel n : Nat} : ∀ d ∈ digitsRevAux fuel n, d < 10 := by
  induction fuel generalizing n with
  | zero => simp [digitsRevAux]
  | succ f ih =>
    intro d hd
    unfold digitsRevAux at hd
    by_cases h0 : n = 0
    · simp [h0] at hd
    · simp only [if_neg h0, List.mem_cons] at hd
      rcases hd with h | h
      · subst h; exact Nat.mod_lt _ (by norm_num)
      · exact ih _ h

lemma renderNat_digits {n : Nat} : ∀ c ∈ renderNat n, c.isDigit = true := by
  intro c hc
  unfold renderNat at hc
  rw [List.mem_reverse, List.mem_map] at hc
  obtain ⟨d, hd, rfl⟩ := hc
  exact isDigit_digitChar (digitsRevAux_lt d hd)

lemma padZeros_digits {w : Nat} {cs : List Char} (h : ∀ c ∈ cs, c.isDigit = true) :
    ∀ c ∈ padZeros w cs, c.isDigit = true := by
  intro c hc
  unfold padZeros at hc
  rw [List.mem_append] at hc
  rcases hc with hc | hc
  · rw [List.eq_of_mem_replicate hc]; rfl
  · exact h c hc

lemma ofDigits_replicate_zero (k : Nat) :
    Nat.ofDigits 10 (List.replicate k 0) = 0 := by
  induction k with
  | zero => simp [Nat.ofDigits_nil]
  | succ m ih => simp [List.replicate_succ, Nat.ofDigits_cons, ih]

lemma parseDigits_padZeros_renderNat (w n : Nat) :
    parseDigits (padZeros w (renderNat n)) = n := by
  unfold parseDigits padZeros
  rw [List.map_append, List.reverse_append]
  have h1 : (renderNat n).map digitVal = (digitsRev n).reverse := by
    unfold renderNat
    rw [List.map_reverse, List.map_map]
    congr 1
    rw [show digitVal ∘ digitChar = fun d => digitVal (digitChar d) from rfl]
    calc (digitsRev n).map (fun d => digitVal (digitChar d))
        = (digitsRev n).map id := by
          apply List.map_congr_left
          intro d hd
          exact digitVal_digitChar (digitsRevAux_lt d hd)
      _ = digitsRev n := List.map_id _
  rw [h1, List.reverse_reverse]
  have h2 : (List.replicate (w - (renderNat n).length) '0').map digitVal
      = List.replicate (w - (renderNat n).length) 0 := by
    rw [List.map_replicate]; rfl
  rw [h2, List.reverse_replicate, Nat.ofDigits_append]
  rw [ofDigits_replicate_zero, Nat.mul_zero, Nat.add_zero]
  exact ofDigits_digitsRevAux le_rfl

lemma takeDigits_append {ds rest : List Char}
    (hds : ∀ c ∈ ds, c.isDigit = true) (hrest : HeadNotDigit rest) :
    takeDigits (ds ++ rest) = (ds, rest) := by
  induction ds with
  | nil =>
    cases rest with
    | nil => rfl
    | cons c cs =>
      unfold HeadNotDigit at hrest
      simp [takeDigits, hrest]
  | cons c cs ih =>
    have hc : c.isDigit = true := hds c (List.mem_cons_self c cs)
    have ih2 := ih (fun x hx => hds x (List.mem_cons_of_mem c hx))
    simp only [List.cons_append, takeDigits, hc, if_pos, List.append_eq]
    rw [ih2]

lemma padZeros_ne_nil {w : Nat} (hw : 1 ≤ w) (cs : List Char) :
    padZeros w cs ≠ [] := by
  intro h
  have := congrArg List.length h
  simp only [padZeros, List.length_append, List.length_replicate, List.length_nil] at this
  omega

lemma readNumField_pad {w n : Nat} (hw : 1 ≤ w) {rest : List Char}
    (hrest : HeadNotDigit rest) :
    readNumField (padZeros w (renderNat n) ++ rest) = some (n, rest) := by
  unfold readNumField
  rw [takeDigits_append (padZeros_digits renderNat_digits) hrest]
  obtain ⟨d, ds, hEq⟩ :=
    List.exists_cons_of_ne_nil (padZeros_ne_nil hw (renderNat n))
  rw [hEq]
  have : parseDigits (d :: ds) = n := by
    rw [← hEq]; exact parseDigits_padZeros_renderNat w n
  show some (parseDigits (d :: ds), rest) = some (n, rest)
  rw [this]

lemma readNumField_pad4 (n : Nat) {rest : List Char} (hrest : HeadNotDigit rest) :
    readNumField (pad4 n ++ rest) = some (n, rest) :=
  readNumField_pad (by norm_num) hrest

lemma readNumField_pad2 (n : Nat) {rest : List Char} (hrest : HeadNotDigit rest) :
    readNumField (pad2 n ++ rest) = some (n, rest) :=
  readNumField_pad (by norm_num) hrest

lemma readNumField_pad2_nil (n : Nat) : readNumField (pad2 n) = some (n, []) := by
  have h := @readNumField_pad2 n [] trivial
  simpa using h

lemma parseTm_format (t : Tm) : parseTmChars (timePointToString t).data = some t := by
  show parseTmChars
    (pad4 t.year ++ ('-' :: (pad2 t.month ++ ('-' :: (pad2 t.day ++
      (' ' :: (pad2 t.hour ++ (':' :: (pad2 t.minute ++ (':' :: pad2 t.second)))))))))) = some t
  unfold parseTmChars
  rw [readNumField_pad4 t.year (by exact rfl)]
  simp only [Option.bind_eq_bind, Option.some_bind, expectChar, if_pos]
  rw [readNumField_pad2 t.month (by exact rfl)]
  simp only [Option.some_bind, expectChar, if_pos]
  rw [readNumField_pad2 t.day (by exact rfl)]
  simp only [Option.some_bind, expectChar, if_pos]
  rw [readNumField_pad2 t.hour (by exact rfl)]
  simp only [Option.some_bind, expectChar, if_pos]
  rw [readNumField_pad2 t.minute (by exact rfl)]
  simp only [Option.some_bind, expectChar, if_pos]
  rw [readNumField_pad2_nil t.second]
  rfl

lemma stringToTimePoint_roundTrip (t : Tm) :
    stringToTimePoint (timePointToString t) = t := by
  unfold stringToTimePoint
  rw [parseTm_format]
  rfl

end Chat

namespace Chat

lemma stringToTimePoint_timePointToString (t : Tm) :
    stringToTimePoint (timePointToString t) = t := by
  unfold stringToTimePoint
  rw [parseTm_format]
  rfl

lemma message_roundTrip (m : Message) :
    Message.fromJson? (Message.toJson m) = some m := by
  obtain ⟨id, liked, disliked, role, content, ts⟩ := m
  simp [Message.toJson, Message.fromJson?, JVal.lookup, jfieldsLookup,
    JVal.getInt?, JVal.getBool?, JVal.getStr?, stringToTimePoint_timePointToString]

lemma messagesFromJson_map (ms : List Message) :
    messagesFromJson? (.jarr (ms.map Message.toJson)) = some ms := by
  unfold messagesFromJson?
  induction ms with
  | nil => rfl
  | cons m rest ih =>
    simp only [List.map_cons, List.mapM_cons, message_roundTrip,
      Option.pure_def, Option.bind_eq_bind, Option.some_bind]
    simp only [List.map] at ih
    rw [ih]
    rfl

lemma chatHistory_roundTrip (c : ChatHistory) :
    ChatHistory.fromJson? (ChatHistory.toJson c) = some c := by
  obtain ⟨id, lm, name, msgs⟩ := c
  simp [ChatHistory.toJson, ChatHistory.fromJson?, JVal.lookup, jfieldsLookup,
    JVal.getInt?, JVal.getStr?, messagesFromJson_map]

lemma mapInsertStr_append {m : List (String × String)} {k : String} {v : String}
    (h : ∀ kv ∈ m, kv.1 < k) :
    mapInsertStr m k v = m ++ [(k, v)] := by
  induction m with
  | nil => rfl
  | cons kv0 rest ih =>
    obtain ⟨k0, v0⟩ := kv0
    have h0 : k0 < k := h (k0, v0) (List.mem_cons_self _ _)
    unfold mapInsertStr
    rw [if_neg (by exact fun hlt => absurd hlt (lt_asymm h0)),
      if_neg (by exact (ne_of_gt h0)),
      ih (fun kv hkv => h kv (List.mem_cons_of_mem _ hkv))]
    rfl

lemma foldl_mapInsertStr {l m : List (String × String)}
    (h : (m ++ l).Pairwise (fun a b => a.1 < b.1)) :
    l.foldl (fun acc kv => mapInsertStr acc kv.1 kv.2) m = m ++ l := by
  induction l generalizing m with
  | nil => simp
  | cons kv rest ih =>
    simp only [List.foldl_cons]
    have hlt : ∀ x ∈ m, x.1 < kv.1 := by
      intro x hx
      exact (List.pairwise_append.1 h).2.2 x hx kv (List.mem_cons_self _ _)
    rw [mapInsertStr_append hlt]
    have h2 : ((m ++ [kv]) ++ rest).Pairwise (fun a b => a.1 < b.1) := by
      rw [List.append_assoc, List.singleton_append]
      exact h
    rw [ih h2, List.append_assoc, List.singleton_append]

lemma entriesExtract (l : List (String × String)) :
    ((l.map (fun p => (p.1, JVal.jstr p.2))).mapM (fun kv => do
      let s ← kv.2.getStr?
      pure (kv.1, s))) = some l := by
  induction l with
  | nil => rfl
  | cons p rest ih =>
    simp only [List.map_cons, List.mapM_cons]
    rw [show ((JVal.jstr p.2).getStr?) = some p.2 from rfl]
    simp only [Option.bind_eq_bind, Option.some_bind, Option.pure_def] at ih ⊢
    rw [ih]
    rfl

lemma paramsFromJson_toJson {l : List (String × String)} (h : ParamsSorted l) :
    paramsFromJson? (.jobj (l.map (fun p => (p.1, .jstr p.2)))) = some l := by
  show (do
      let entries ← (l.map (fun p => (p.1, JVal.jstr p.2))).mapM (fun kv => do
        let s ← kv.2.getStr?
        pure (kv.1, s))
      pure (entries.foldl (fun m kv => mapInsertStr m kv.1 kv.2) [])) = some l
  rw [entriesExtract]
  simp only [Option.bind_eq_bind, Option.some_bind, Option.pure_def]
  have hp : (([] : List (String × String)) ++ l).Pairwise (fun a b => a.1 < b.1) := by
    rw [List.nil_append]
    exact (List.chain'_iff_pairwise).1 h
  rw [foldl_mapInsertStr hp, List.nil_append]

lemma toolCall_roundTrip (t : ToolCall) (h : ParamsSorted t.params) :
    ToolCall.fromJson? (ToolCall.toJson t) = some t := by
  obtain ⟨fn, params, si, ei, out⟩ := t
  simp only [ToolCall.toJson, ToolCall.fromJson?, JVal.lookup, jfieldsLookup]
  simp only [ParamsSorted] at h
  simp [JVal.getStr?, JVal.getNat?, paramsFromJson_toJson h, Int.toNat_ofNat]

/-- Claim C1 (corrected): serializing then deserializing restores a
`ChatHistory` field for field (with timestamps at second precision), and a
`ToolCall` likewise; but a serialized message record carries exactly the six
fields `id`, `isLiked`, `isDisliked`, `role`, `content`, `timestamp` — there
are no `tps`, `modelName` or `toolCalls` members, because the `Message`
struct of src/include/chat/chat_history.hpp has no such fields. -/
theorem c1_amended :
    (∀ c : ChatHistory, (∀ m ∈ c.messages, m.timestamp.Valid) →
        ChatHistory.fromJson? (ChatHistory.toJson c) = some c) ∧
    (∀ m : Message, (Message.toJson m).fieldNames =
        ["id", "isLiked", "isDisliked", "role", "content", "timestamp"]) ∧
    (∀ t : ToolCall, ParamsSorted t.params →
        ToolCall.fromJson? (ToolCall.toJson t) = some t) ∧
    (∀ t : ToolCall, (ToolCall.toJson t).fieldNames =
        ["func_name", "params", "start_index", "end_index", "output"]) := by
  refine ⟨fun c _ => chatHistory_roundTrip c, fun m => rfl,
    fun t h => toolCall_roundTrip t h, fun t => rfl⟩

/-- Witness for C1: the round trip evaluated on one concrete chat and one
concrete tool call. -/
theorem c1_amended_witness :
    ChatHistory.fromJson? (ChatHistory.toJson
        ⟨7, 1700000000, "Chat A",
          [⟨1, false, true, "user", "hi", ⟨2024, 3, 7, 5, 9, 3⟩⟩]⟩) =
      some ⟨7, 1700000000, "Chat A",
          [⟨1, false, true, "user", "hi", ⟨2024, 3, 7, 5, 9, 3⟩⟩]⟩ ∧
    ToolCall.fromJson? (ToolCall.toJson ⟨"search", [("query", "cats")], 3, 20, ""⟩) =
      some ⟨"search", [("query", "cats")], 3, 20, ""⟩ :=
  ⟨c1_amended.1 _ (by intro m hm; simp at hm; subst hm; decide),
   c1_amended.2.2.1 _ (by simp [ParamsSorted])⟩

/-- Claim C1 counterexample: a valid chat whose serialized message record has
no `tps`, `modelName` or `toolCalls` member, against the claimed field set. -/
theorem c1_counterexample :
    (ChatHistory.toJson ⟨7, 1700000000, "Chat A",
        [⟨1, false, true, "user", "hi", ⟨2024, 3, 7, 5, 9, 3⟩⟩]⟩).lookup "messages" =
      some (.jarr [Message.toJson ⟨1, false, true, "user", "hi", ⟨2024, 3, 7, 5, 9, 3⟩⟩]) ∧
    (Message.toJson ⟨1, false, true, "user", "hi", ⟨2024, 3, 7, 5, 9, 3⟩⟩).fieldNames =
      ["id", "isLiked", "isDisliked", "role", "content", "timestamp"] ∧
    (Message.toJson ⟨1, false, true, "user", "hi", ⟨2024, 3, 7, 5, 9, 3⟩⟩).lookup "tps" = none ∧
    (Message.toJson ⟨1, false, true, "user", "hi", ⟨2024, 3, 7, 5, 9, 3⟩⟩).lookup "modelName" = none ∧
    (Message.toJson ⟨1, false, true, "user", "hi", ⟨2024, 3, 7, 5, 9, 3⟩⟩).lookup "toolCalls" = none :=
  ⟨rfl, rfl, rfl, rfl, rfl⟩

/-- Claim C2 counterexample: constructing a `Message` with role `"tool"`
throws `std::invalid_argument` — the constructor accepts only `"user"` and
`"assistant"` (chat_history.hpp, line 53). -/
theorem c2_counterexample :
    Message.make 3 "tool" "output" false false ⟨2024, 3, 7, 5, 9, 3⟩ =
      .error "Invalid role: tool" := rfl

/-- Claim C2 (corrected): construction succeeds exactly when the role is
`"user"` or `"assistant"`; every other role (so also `"tool"`) raises
`std::invalid_argument("Invalid role: " + role)` at construction; and no
other operation rejects a role — in particular `from_json` deserializes a
message with an arbitrary role string without complaint. -/
theorem c2_amended :
    (∀ (id : Int) (role content : String) (l d : Bool) (ts : Tm),
      (∃ m, Message.make id role content l d ts = .ok m) ↔
        (role = "user" ∨ role = "assistant")) ∧
    (∀ (id : Int) (role content : String) (l d : Bool) (ts : Tm),
      ¬(role = "user" ∨ role = "assistant") →
        Message.make id role content l d ts = .error ("Invalid role: " ++ role)) ∧
    (∀ m : Message, Message.fromJson? (Message.toJson m) = some m) := by
  refine ⟨?_, ?_, message_roundTrip⟩
  · intro id role content l d ts
    constructor
    · rintro ⟨m, hm⟩
      by_contra hrole
      simp only [Message.make, if_neg hrole] at hm
      exact Except.noConfusion hm
    · intro hrole
      exact ⟨⟨id, l, d, role, content, ts⟩, by simp only [Message.make, if_pos hrole]⟩
  · intro id role content l d ts hrole
    simp only [Message.make, if_neg hrole]

/-- Witness for C2: the characterization evaluated at role `"assistant"`. -/
theorem c2_amended_witness :
    ∃ m, Message.make 1 "assistant" "hello" false false ⟨2024, 3, 7, 5, 9, 3⟩ = .ok m :=
  (c2_amended.1 1 "assistant" "hello" false false ⟨2024, 3, 7, 5, 9, 3⟩).2 (Or.inr rfl)

end Chat

namespace Chat

/-- Claim C6 counterexample: with the STDIO variant active and the engine
initialized, changing the SSE endpoint (a transport configuration change)
leaves `isInitialized()` true — the reset on lines 156-159 of
agent/tool_manager.hpp only fires when the SSE variant is active. -/
theorem c6_counterexample :
    isInitialized (setSseEndpoint { toolManagerInit with clientType := .Stdio, stdioClientPresent := true, initialized := true } "otherhost" 9999) = true ∧
    (setSseEndpoint { toolManagerInit with clientType := .Stdio, stdioClientPresent := true, initialized := true } "otherhost" 9999).sseHost = "otherhost" :=
  ⟨rfl, rfl⟩

/-- Claim C6 (corrected): a client-type switch always clears `initialized`,
and an SSE-endpoint or stdio-command/environment change clears it exactly
when the changed variant is the active one; a configuration change to the
inactive variant leaves `isInitialized()` unchanged. -/
theorem c6_amended :
    (∀ (st : ToolManagerState) (ty : ClientType), st.clientType ≠ ty →
      isInitialized (setClientType st ty) = false) ∧
    (∀ (st : ToolManagerState) (host : String) (port : Int),
      st.clientType = ClientType.SSE → (st.sseHost ≠ host ∨ st.ssePort ≠ port) →
      isInitialized (setSseEndpoint st host port) = false) ∧
    (∀ (st : ToolManagerState) (cmd : String) (env : List (String × String)),
      st.clientType = ClientType.Stdio →
      (st.stdioCommand ≠ cmd ∨ st.stdioEnvVars ≠ env) →
      isInitialized (setStdioCommand st cmd env) = false) ∧
    (∀ (st : ToolManagerState) (host : String) (port : Int),
      st.clientType = ClientType.Stdio →
      isInitialized (setSseEndpoint st host port) = isInitialized st) ∧
    (∀ (st : ToolManagerState) (cmd : String) (env : List (String × String)),
      st.clientType = ClientType.SSE →
      isInitialized (setStdioCommand st cmd env) = isInitialized st) := by
  refine ⟨?_, ?_, ?_, ?_, ?_⟩
  · intro st ty h
    simp [setClientType, isInitialized, h]
  · intro st host port hty hch
    simp [setSseEndpoint, isInitialized, hty, hch]
  · intro st cmd env hty hch
    simp [setStdioCommand, isInitialized, hty, hch]
  · intro st host port hty
    unfold setSseEndpoint isInitialized
    by_cases hch : st.sseHost ≠ host ∨ st.ssePort ≠ port
    · simp [hch, hty]
    · simp [hch]
  · intro st cmd env hty
    unfold setStdioCommand isInitialized
    by_cases hch : st.stdioCommand ≠ cmd ∨ st.stdioEnvVars ≠ env
    · simp [hch, hty]
    · simp [hch]

/-- Witness for C6: an SSE host change while SSE is the active variant
clears `initialized`. -/
theorem c6_amended_witness :
    isInitialized (setSseEndpoint { toolManagerInit with initialized := true }
      "example.org" 80) = false :=
  c6_amended.2.1 { toolManagerInit with initialized := true } "example.org" 80
    rfl (Or.inl (by decide))

/-- Claim C7 (confirmed): with no transport connection established
(`m_initialized` false), `executeTools` yields exactly one failed result per
call, each carrying the error text "MCP client not initialized", and the
transport oracle is never consulted — the output is the same for every
transport. -/
theorem c7_executeTools_uninitialized :
    ∀ (st : ToolManagerState) (transport : Transport) (calls : List ToolCall),
      isInitialized st = false → calls ≠ [] →
      executeTools st transport calls =
        calls.map (fun c =>
          { toolCall := c, result := "", success := false,
            error := "MCP client not initialized" }) ∧
      (∀ transport2 : Transport,
        executeTools st transport calls = executeTools st transport2 calls) := by
  intro st transport calls hinit hne
  have hi : st.initialized = false := hinit
  constructor
  · simp [executeTools, executeToolCall, hi]
  · intro transport2
    simp [executeTools, executeToolCall, hi]

/-- Witness for C7: one uninitialized call against a transport that would
throw; the single result is the failed "not initialized" result. -/
theorem c7_witness :
    executeTools toolManagerInit (fun _ _ _ => .error "boom")
      [⟨"f", [], 0, 0, ""⟩] =
      [{ toolCall := ⟨"f", [], 0, 0, ""⟩, result := "", success := false,
         error := "MCP client not initialized" }] :=
  (c7_executeTools_uninitialized toolManagerInit (fun _ _ _ => .error "boom")
    [⟨"f", [], 0, 0, ""⟩] rfl (by simp)).1

/-- Claim C10 counterexample: quote stripping does NOT happen first — the
boolean check runs on the still-quoted text, so `"true"` (with quotes)
coerces to the string `true`, not to a boolean (agent/tool_manager.hpp,
lines 516-525). -/
theorem c10_counterexample :
    autoConvertValue "\"true\"" = .jstr "true" ∧
    JVal.jstr "true" ≠ JVal.jbool true :=
  ⟨rfl, fun h => JVal.noConfusion h⟩

/-- Claim C10 (corrected): the coercion first trims whitespace; the exact
trimmed words true/false/null become boolean/null BEFORE quote stripping
(quoted literals therefore stay strings); then surrounding matching double
quotes are stripped; a stripped value with no decimal point, fully composed
of digits/sign and accepted by `stoll` becomes an integer; an otherwise
`stod`-parseable value becomes a float; anything else stays the (trimmed,
quote-stripped) string.  Being a pure function, the coercion is
deterministic. -/
theorem c10_amended :
    (∀ s : String, trimChars s.data = "true".data → autoConvertValue s = .jbool true) ∧
    (∀ s : String, trimChars s.data = "false".data → autoConvertValue s = .jbool false) ∧
    (∀ s : String, trimChars s.data = "null".data → autoConvertValue s = .jnull) ∧
    (autoConvertValue "\"true\"" = .jstr "true" ∧
     autoConvertValue "\"false\"" = .jstr "false" ∧
     autoConvertValue "\"null\"" = .jstr "null") ∧
    (∀ (s : String) (v : Int), trimChars s.data ≠ "true".data →
      trimChars s.data ≠ "false".data → trimChars s.data ≠ "null".data →
      intShaped (stripQuotes (trimChars s.data)) = true →
      stollParse (stripQuotes (trimChars s.data)) = some v →
      autoConvertValue s = .jint v) ∧
    (∀ (s : String) (fv : FloatVal), trimChars s.data ≠ "true".data →
      trimChars s.data ≠ "false".data → trimChars s.data ≠ "null".data →
      intShaped (stripQuotes (trimChars s.data)) = false →
      stodParse (stripQuotes (trimChars s.data)) = some fv →
      autoConvertValue s = .jfloat fv) ∧
    (∀ s : String, trimChars s.data ≠ "true".data →
      trimChars s.data ≠ "false".data → trimChars s.data ≠ "null".data →
      (intShaped (stripQuotes (trimChars s.data)) = true ∧
        stollParse (stripQuotes (trimChars s.data)) = none ∨
       intShaped (stripQuotes (trimChars s.data)) = false ∧
        stodParse (stripQuotes (trimChars s.data)) = none) →
      autoConvertValue s = .jstr (String.mk (stripQuotes (trimChars s.data)))) := by
  refine ⟨?_, ?_, ?_, ⟨rfl, rfl, rfl⟩, ?_, ?_, ?_⟩
  · intro s h; simp [autoConvertValue, h]
  · intro s h
    unfold autoConvertValue
    rw [if_neg (by rw [h]; decide), if_pos h]
  · intro s h
    unfold autoConvertValue
    rw [if_neg (by rw [h]; decide), if_neg (by rw [h]; decide), if_pos h]
  · intro s v h1 h2 h3 hshape hstoll
    unfold autoConvertValue
    rw [if_neg h1, if_neg h2, if_neg h3]
    simp only [hshape, if_pos, hstoll]
  · intro s fv h1 h2 h3 hshape hstod
    unfold autoConvertValue
    rw [if_neg h1, if_neg h2, if_neg h3]
    simp only [hshape, Bool.false_eq_true, if_false, hstod]
  · intro s h1 h2 h3 hfail
    unfold autoConvertValue
    rw [if_neg h1, if_neg h2, if_neg h3]
    rcases hfail with ⟨hshape, hstoll⟩ | ⟨hshape, hstod⟩
    · simp only [hshape, if_pos, hstoll]
    · simp only [hshape, Bool.false_eq_true, if_false, hstod]

/-- Witness for C10: the integer rule applied to the quoted number 42 —
quotes stripped, then coerced to the integer 42. -/
theorem c10_amended_witness : autoConvertValue " \"42\" " = .jint 42 :=
  c10_amended.2.2.2.2.1 " \"42\" " 42 (by decide) (by decide) (by decide)
    (by decide) (by decide)

end Chat

namespace Chat

/-- Claim C5 (code bug), evaluated at the failing input: with a chat name
not in the store and index -1, `setMessageModelName` evaluates
`it->messages.size() - 1` on the end iterator BEFORE the `it != end()`
check (chat_manager.hpp, lines 402-410) — undefined behaviour, modelled as
`none` — whereas any other index only logs "Chat not found" and leaves the
store unchanged, and the by-index `deleteMessage` handles the missing chat
correctly for every index. -/
theorem c5_end_iterator_deref :
    setMessageModelName (initialManagerState 0) 1 "ghost" (-1) "m" = none ∧
    (∀ idx : Int, idx ≠ -1 →
      setMessageModelName (initialManagerState 0) 1 "ghost" idx "m" =
        some (initialManagerState 0)) ∧
    (∀ idx : Int, deleteMessage (initialManagerState 0) 1 "ghost" idx =
      initialManagerState 0) := by
  refine ⟨rfl, ?_, ?_⟩
  · intro idx h
    unfold setMessageModelName
    rw [show findChatIdx (initialManagerState 0).chats "ghost" = none from rfl]
    simp [h]
  · intro idx
    unfold deleteMessage
    rw [show findChatIdx (initialManagerState 0).chats "ghost" = none from rfl]

/-- Witness for C5: the missing-chat path with index 0 returns normally with
the store unchanged. -/
theorem c5_witness :
    setMessageModelName (initialManagerState 0) 1 "ghost" 0 "m" =
      some (initialManagerState 0) :=
  c5_end_iterator_deref.2.1 0 (by decide)

end Chat

namespace Chat

/-! ### Sorted-set and association-map lemmas -/

lemma ciEquiv_of_not_lt {a b : ChatIndex} (h1 : ¬ciLt a b) (h2 : ¬ciLt b a) :
    ciEquiv a b := by
  unfold ciLt at h1 h2
  push_neg at h1 h2
  have hlm : a.lastModified = b.lastModified := by omega
  refine ⟨hlm, ?_⟩
  exact le_antisymm (le_of_not_lt (h2.2 hlm.symm)) (le_of_not_lt (h1.2 hlm))

lemma setInsert_head (l : List ChatIndex) (e : ChatIndex) :
    (setInsert l e).head? = some e ∨ (setInsert l e).head? = l.head? := by
  cases l with
  | nil => exact Or.inl rfl
  | cons x xs =>
    unfold setInsert
    by_cases h1 : ciLt e x
    · simp [h1]
    · by_cases h2 : ciLt x e <;> simp [h1, h2]

lemma chain_setInsert {l : List ChatIndex} (e : ChatIndex) (h : l.Chain' ciLt) :
    (setInsert l e).Chain' ciLt := by
  induction l with
  | nil => simp [setInsert]
  | cons x xs ih =>
    rw [List.chain'_cons'] at h
    unfold setInsert
    by_cases h1 : ciLt e x
    · rw [if_pos h1, List.chain'_cons]
      exact ⟨h1, List.chain'_cons'.2 h⟩
    · rw [if_neg h1]
      by_cases h2 : ciLt x e
      · rw [if_pos h2, List.chain'_cons']
        refine ⟨?_, ih h.2⟩
        intro y hy
        rcases setInsert_head xs e with hh | hh
        · rw [hh] at hy
          simp at hy
          subst hy
          exact h2
        · rw [hh] at hy
          exact h.1 y hy
      · rw [if_neg h2, List.chain'_cons']
        exact h
  
lemma setInsert_perm {l : List ChatIndex} {e : ChatIndex}
    (h : ∀ x ∈ l, ¬ ciEquiv x e) : (setInsert l e).Perm (e :: l) := by
  induction l with
  | nil => exact List.Perm.refl _
  | cons x xs ih =>
    unfold setInsert
    by_cases h1 : ciLt e x
    · rw [if_pos h1]
    · rw [if_neg h1]
      by_cases h2 : ciLt x e
      · rw [if_pos h2]
        have hperm := ih (fun y hy => h y (List.mem_cons_of_mem x hy))
        exact (hperm.cons x).trans (List.Perm.swap e x xs)
      · exact absurd (ciEquiv_of_not_lt h2 h1) (h x (List.mem_cons_self x xs))

lemma setErase_sublist (l : List ChatIndex) (e : ChatIndex) :
    (setErase l e).Sublist l :=
  List.eraseP_sublist l

lemma setErase_perm {l : List ChatIndex} {e : ChatIndex}
    (he : e ∈ l)
    (huniq : ∀ x ∈ l, ciEquiv x e → x = e) :
    l.Perm (e :: setErase l e) := by
  obtain ⟨a, l₁, l₂, hnl, hpa, hsplit, herase⟩ :=
    @List.exists_of_eraseP ChatIndex (fun x => decide (ciEquiv x e)) l e he
      (decide_eq_true ⟨rfl, rfl⟩)
  have ha : a = e :=
    huniq a
      (by rw [hsplit]; exact List.mem_append_right _ (List.mem_cons_self _ _))
      (of_decide_eq_true hpa)
  rw [show setErase l e = l₁ ++ l₂ from herase, hsplit, ha]
  exact List.perm_middle

lemma amLookup_eq_some_of_mem {l : List (String × Nat)} {k : String} {v : Nat}
    (hnodup : (l.map Prod.fst).Nodup) (hmem : (k, v) ∈ l) :
    amLookup l k = some v := by
  induction l with
  | nil => simp at hmem
  | cons kv rest ih =>
    obtain ⟨k0, v0⟩ := kv
    simp only [List.map_cons, List.nodup_cons] at hnodup
    rcases List.mem_cons.1 hmem with h | h
    · rw [Prod.mk.injEq] at h
      obtain ⟨h1, h2⟩ := h
      subst h1; subst h2
      simp [amLookup]
    · have hne : k0 ≠ k := by
        intro hk
        subst hk
        exact hnodup.1 (List.mem_map.2 ⟨(k0, v), h, rfl⟩)
      simp only [amLookup, if_neg hne]
      exact ih hnodup.2 h

lemma amLookup_none_of_not_mem {l : List (String × Nat)} {k : String}
    (h : k ∉ l.map Prod.fst) : amLookup l k = none := by
  induction l with
  | nil => rfl
  | cons kv rest ih =>
    obtain ⟨k0, v0⟩ := kv
    simp only [List.map_cons, List.mem_cons, not_or] at h
    simp only [amLookup, if_neg (fun he => h.1 (Eq.symm he))]
    exact ih h.2

lemma amInsert_not_mem {l : List (String × Nat)} {k : String} (v : Nat)
    (h : k ∉ l.map Prod.fst) : amInsert l k v = l ++ [(k, v)] := by
  induction l with
  | nil => rfl
  | cons kv rest ih =>
    obtain ⟨k0, v0⟩ := kv
    simp only [List.map_cons, List.mem_cons, not_or] at h
    simp only [amInsert, if_neg (fun he => h.1 (Eq.symm he)), List.cons_append]
    rw [ih h.2]

lemma mem_eraseP_of_mem_of_neg {α : Type} {p : α → Bool} {l : List α} {x : α}
    (hx : x ∈ l) (hpx : p x = false) : x ∈ l.eraseP p := by
  induction l with
  | nil => simp at hx
  | cons y ys ih =>
    by_cases hy : p y = true
    · rw [List.eraseP_cons_of_pos hy]
      rcases List.mem_cons.1 hx with h | h
      · subst h; rw [hpx] at hy; exact absurd hy (by simp)
      · exact h
    · rw [List.eraseP_cons_of_neg (by simpa using hy)]
      rcases List.mem_cons.1 hx with h | h
      · subst h; exact List.mem_cons_self _ _
      · exact List.mem_cons_of_mem _ (ih h)

end Chat

namespace Chat

/-! ### listModify, canonical-entry and getChats lemmas -/

lemma listModify_length {α : Type} (l : List α) (i : Nat) (f : α → α) :
    (listModify l i f).length = l.length := by
  induction l generalizing i with
  | nil => rfl
  | cons x xs ih =>
    cases i with
    | zero => rfl
    | succ j => simp [listModify, ih]

lemma getD_listModify_ne {α : Type} (l : List α) {i j : Nat} (f : α → α) (d : α)
    (h : j ≠ i) : (listModify l i f).getD j d = l.getD j d := by
  induction l generalizing i j with
  | nil => rfl
  | cons x xs ih =>
    cases i with
    | zero =>
      cases j with
      | zero => exact absurd rfl h
      | succ j2 => rfl
    | succ i2 =>
      cases j with
      | zero => rfl
      | succ j2 =>
        simp only [listModify, List.getD_cons_succ]
        exact ih (fun he => h (by omega))

lemma getD_listModify_self {α : Type} (l : List α) {i : Nat} (f : α → α) (d : α)
    (h : i < l.length) : (listModify l i f).getD i d = f (l.getD i d) := by
  induction l generalizing i with
  | nil => simp at h
  | cons x xs ih =>
    cases i with
    | zero => rfl
    | succ i2 =>
      simp only [listModify, List.getD_cons_succ]
      exact ih (by simpa using h)

lemma listModify_map {α β : Type} (l : List α) (i : Nat) (f : α → α) (g : α → β)
    (h : ∀ x, g (f x) = g x) : (listModify l i f).map g = l.map g := by
  induction l generalizing i with
  | nil => rfl
  | cons x xs ih =>
    cases i with
    | zero => simp [listModify, h]
    | succ j => simp [listModify, ih]

lemma mapRangeGetD {α : Type} (l : List α) (d : α) :
    (List.range l.length).map (fun i => l.getD i d) = l := by
  induction l with
  | nil => rfl
  | cons x xs ih =>
    rw [List.length_cons, List.range_succ_eq_map, List.map_cons, List.map_map]
    rw [show ((fun i => (x :: xs).getD i d) ∘ Nat.succ) = (fun i => xs.getD i d) from rfl]
    rw [ih]
    rfl

lemma canonEntries_length (chats : List StoredChat) :
    (canonEntries chats).length = chats.length := by
  simp [canonEntries]

lemma entryOf_mem_canon {chats : List StoredChat} {i : Nat} (h : i < chats.length) :
    entryOf chats i ∈ canonEntries chats := by
  exact List.mem_map.2 ⟨i, List.mem_range.2 h, rfl⟩

lemma mem_canon_fields {chats : List StoredChat} {e : ChatIndex}
    (h : e ∈ canonEntries chats) :
    e.index < chats.length ∧ e = entryOf chats e.index := by
  obtain ⟨i, hi, rfl⟩ := List.mem_map.1 h
  exact ⟨List.mem_range.1 hi, rfl⟩

lemma canonEntries_append (chats : List StoredChat) (c : StoredChat) :
    canonEntries (chats ++ [c]) =
      canonEntries chats ++ [⟨c.lastModified, chats.length, c.name⟩] := by
  unfold canonEntries
  rw [List.length_append, List.length_singleton, List.range_succ, List.map_append]
  congr 1
  · apply List.map_congr_left
    intro i hi
    have hilt : i < chats.length := List.mem_range.1 hi
    unfold entryOf
    rw [List.getD_append _ _ _ _ hilt]
  · simp only [List.map_cons, List.map_nil]
    unfold entryOf
    rw [List.getD_append_right _ _ _ _ (le_refl chats.length)]
    simp

lemma canonMap_append (chats : List StoredChat) (c : StoredChat) :
    canonMap (chats ++ [c]) = canonMap chats ++ [(c.name, chats.length)] := by
  unfold canonMap
  rw [List.length_append, List.length_singleton, List.range_succ, List.map_append]
  congr 1
  · apply List.map_congr_left
    intro i hi
    have hilt : i < chats.length := List.mem_range.1 hi
    rw [List.getD_append _ _ _ _ hilt]
  · simp only [List.map_cons, List.map_nil]
    rw [List.getD_append_right _ _ _ _ (le_refl chats.length)]
    simp

lemma canonMap_keys (chats : List StoredChat) :
    (canonMap chats).map Prod.fst = chats.map StoredChat.name := by
  unfold canonMap
  rw [List.map_map]
  have : (Prod.fst ∘ fun i => ((chats.getD i dummyChat).name, i)) =
      (fun i => (chats.getD i dummyChat).name) := rfl
  rw [this,
    show (fun i => (chats.getD i dummyChat).name) =
      (StoredChat.name ∘ fun i => chats.getD i dummyChat) from rfl,
    ← List.map_map, mapRangeGetD]

lemma canonEntries_index_map (chats : List StoredChat) :
    (canonEntries chats).map ChatIndex.index = List.range chats.length := by
  unfold canonEntries
  rw [List.map_map]
  have : (ChatIndex.index ∘ entryOf chats) = id := rfl
  rw [this, List.map_id]

lemma getChatsGo_of_nodup (chats : List StoredChat) :
    ∀ (l : List ChatIndex) (seen : List Nat),
      (l.map ChatIndex.index).Nodup → (∀ e ∈ l, e.index ∉ seen) →
      getChatsGo chats l seen = l.map (fun e => chats.getD e.index dummyChat) := by
  intro l
  induction l with
  | nil => intro seen _ _; rfl
  | cons e es ih =>
    intro seen hnodup hseen
    simp only [List.map_cons, List.nodup_cons] at hnodup
    unfold getChatsGo
    rw [if_neg (by simpa using hseen e (List.mem_cons_self e es))]
    have hs2 : ∀ x ∈ es, x.index ∉ e.index :: seen := by
      intro x hx
      simp only [List.mem_cons, not_or]
      refine ⟨?_, hseen x (List.mem_cons_of_mem e hx)⟩
      intro he2
      exact hnodup.1 (List.mem_map.2 ⟨x, hx, he2⟩)
    rw [ih (e.index :: seen) hnodup.2 hs2]
    rfl

lemma sorted_index_nodup {st : ManagerState} (h : MgrInv st) :
    (st.sortedIndices.map ChatIndex.index).Nodup := by
  obtain ⟨_, _, _, hperm⟩ := h
  have := (hperm.map ChatIndex.index)
  rw [canonEntries_index_map] at this
  exact this.nodup_iff.2 (List.nodup_range _)

lemma getChats_of_inv {st : ManagerState} (h : MgrInv st) :
    getChats st = st.sortedIndices.map (fun e => st.chats.getD e.index dummyChat) := by
  unfold getChats
  exact getChatsGo_of_nodup st.chats st.sortedIndices [] (sorted_index_nodup h)
    (by simp)

lemma getChats_perm {st : ManagerState} (h : MgrInv st) :
    (getChats st).Perm st.chats := by
  rw [getChats_of_inv h]
  obtain ⟨_, _, _, hperm⟩ := h
  have h2 := hperm.map (fun e => st.chats.getD e.index dummyChat)
  refine h2.trans ?_
  unfold canonEntries
  rw [List.map_map]
  have : ((fun e => st.chats.getD e.index dummyChat) ∘ entryOf st.chats) =
      (fun i => st.chats.getD i dummyChat) := rfl
  rw [this, mapRangeGetD]

lemma entry_fields_of_inv {st : ManagerState} (h : MgrInv st) {e : ChatIndex}
    (he : e ∈ st.sortedIndices) :
    e.index < st.chats.length ∧
      (st.chats.getD e.index dummyChat).lastModified = e.lastModified ∧
      (st.chats.getD e.index dummyChat).name = e.name := by
  obtain ⟨_, _, _, hperm⟩ := h
  have hmem : e ∈ canonEntries st.chats := hperm.mem_iff.1 he
  obtain ⟨hlt, hfields⟩ := mem_canon_fields hmem
  refine ⟨hlt, ?_, ?_⟩
  · exact (congrArg ChatIndex.lastModified hfields).symm
  · exact (congrArg ChatIndex.name hfields).symm

lemma getChats_sorted {st : ManagerState} (h : MgrInv st) :
    (getChats st).Chain' chatKeyLt := by
  rw [getChats_of_inv h]
  have hchain : st.sortedIndices.Chain' ciLt := h.2.2.1
  have hpw : st.sortedIndices.Pairwise ciLt := List.chain'_iff_pairwise.1 hchain
  have hpw2 : st.sortedIndices.Pairwise
      (fun e1 e2 => chatKeyLt (st.chats.getD e1.index dummyChat)
        (st.chats.getD e2.index dummyChat)) := by
    refine hpw.imp_of_mem ?_
    intro e1 e2 h1 h2 hlt
    obtain ⟨_, hlm1, hn1⟩ := entry_fields_of_inv h h1
    obtain ⟨_, hlm2, hn2⟩ := entry_fields_of_inv h h2
    unfold chatKeyLt
    unfold ciLt at hlt
    rw [hlm1, hlm2, hn1, hn2]
    exact hlt
  exact (List.pairwise_map.2 hpw2).chain'

end Chat

namespace Chat

/-! ### Freshness of the collision-resolved name -/

lemma padZeros_zero (cs : List Char) : padZeros 0 cs = cs := by
  simp [padZeros]

lemma parseDigits_renderNat (n : Nat) : parseDigits (renderNat n) = n := by
  have h := parseDigits_padZeros_renderNat 0 n
  rwa [padZeros_zero] at h

lemma parseDigits_natRepr (n : Nat) : parseDigits (natRepr n).data = n := by
  unfold natRepr
  by_cases h : n = 0
  · subst h; rfl
  · rw [if_neg h]
    exact parseDigits_renderNat n

lemma natRepr_inj {a b : Nat} (h : natRepr a = natRepr b) : a = b := by
  have := congrArg (fun s => parseDigits s.data) h
  simpa [parseDigits_natRepr] using this

lemma mkSuffixed_inj (name : String) {a b : Nat}
    (h : mkSuffixed name a = mkSuffixed name b) : a = b := by
  unfold mkSuffixed at h
  have hd := congrArg String.data h
  simp only [String.data_append] at hd
  have h1 := List.append_cancel_right hd
  have h2 := List.append_cancel_left h1
  exact natRepr_inj (congrArg String.mk h2)

lemma suffix_fresh (keys : List String) (name : String) (counter : Nat) :
    ∃ j, j ≤ keys.length ∧ mkSuffixed name (counter + j) ∉ keys := by
  by_contra hall
  push_neg at hall
  set L := (List.range (keys.length + 1)).map (fun j => mkSuffixed name (counter + j)) with hL
  have hnodupL : L.Nodup := by
    refine (List.nodup_range _).map ?_
    intro a b hab
    have := mkSuffixed_inj name hab
    omega
  have hsub : ∀ x ∈ L, x ∈ keys := by
    intro x hx
    obtain ⟨j, hj, rfl⟩ := List.mem_map.1 hx
    have hj2 := List.mem_range.1 hj
    exact hall j (by omega)
  have hcard : L.length ≤ keys.toFinset.card := by
    have h1 : L.toFinset.card = L.length := List.toFinset_card_of_nodup hnodupL
    have h2 : L.toFinset ⊆ keys.toFinset := by
      intro x hx
      rw [List.mem_toFinset] at hx ⊢
      exact hsub x hx
    calc L.length = L.toFinset.card := h1.symm
      _ ≤ keys.toFinset.card := Finset.card_le_card h2
  have hlen : L.length = keys.length + 1 := by simp [hL]
  have hk : keys.toFinset.card ≤ keys.length := List.toFinset_card_le keys
  omega

lemma resolve_aux (keys : List String) (name : String) :
    ∀ (fuel : Nat) (cand : String) (counter : Nat),
      (cand ∉ keys ∨ ∃ j, j + 1 < fuel ∧ mkSuffixed name (counter + j) ∉ keys) →
      (resolveUniqueName keys name cand counter fuel).1 ∉ keys := by
  intro fuel
  induction fuel with
  | zero =>
    intro cand counter h
    rcases h with h | ⟨j, hj, _⟩
    · exact h
    · omega
  | succ f ih =>
    intro cand counter h
    unfold resolveUniqueName
    by_cases hc : cand ∈ keys
    · rw [if_pos hc]
      apply ih
      rcases h with h | ⟨j, hj, hfresh⟩
      · exact absurd hc h
      · cases j with
        | zero => exact Or.inl (by simpa using hfresh)
        | succ j2 =>
          refine Or.inr ⟨j2, by omega, ?_⟩
          have : counter + 1 + j2 = counter + (j2 + 1) := by omega
          rw [this]
          exact hfresh
    · rw [if_neg hc]
      exact hc

lemma resolve_fresh (keys : List String) (name : String) (counter : Nat) :
    (resolveUniqueName keys name name counter (keys.length + 2)).1 ∉ keys := by
  apply resolve_aux
  by_cases hn : name ∈ keys
  · obtain ⟨j, hj, hfresh⟩ := suffix_fresh keys name counter
    exact Or.inr ⟨j, by omega, hfresh⟩
  · exact Or.inl hn

end Chat

namespace Chat

/-! ### Invariant preservation -/

lemma mgrInv_initial (now : Int) : MgrInv (initialManagerState now) := by
  refine ⟨?_, ?_, ?_, ?_⟩
  · simp [initialManagerState, createDefaultChat, defaultChat, defaultChatName]
  · exact List.Perm.refl _
  · exact List.chain'_singleton _
  · exact List.Perm.refl _

lemma switchToChat_fields (st : ManagerState) (name : String) :
    ((switchToChat st name).1).chats = st.chats ∧
    ((switchToChat st name).1).chatNameToIndex = st.chatNameToIndex ∧
    ((switchToChat st name).1).sortedIndices = st.sortedIndices ∧
    ((switchToChat st name).1).chatInferenceJobIdMap = st.chatInferenceJobIdMap := by
  cases h : amLookup st.chatNameToIndex name <;> simp [switchToChat, h]

lemma mgrInv_switchToChat {st : ManagerState} (name : String) (h : MgrInv st) :
    MgrInv (switchToChat st name).1 := by
  have hf := switchToChat_fields st name
  unfold MgrInv
  rw [hf.1, hf.2.1, hf.2.2.1]
  exact h

lemma entryOf_injective (chats : List StoredChat) :
    Function.Injective (entryOf chats) := by
  intro a b hab
  exact congrArg ChatIndex.index hab

lemma canonEntries_nodup (chats : List StoredChat) :
    (canonEntries chats).Nodup :=
  (List.nodup_range _).map (entryOf_injective chats)

lemma sorted_nodup {st : ManagerState} (h : MgrInv st) :
    st.sortedIndices.Nodup :=
  h.2.2.2.nodup_iff.2 (canonEntries_nodup st.chats)

lemma chats_name_inj {st : ManagerState} (h : MgrInv st) {i j : Nat}
    (hi : i < st.chats.length) (hj : j < st.chats.length)
    (hn : (st.chats.getD i dummyChat).name = (st.chats.getD j dummyChat).name) :
    i = j := by
  have hnodup := h.1
  have hlen : st.chats.length = (st.chats.map StoredChat.name).length := by simp
  have hgi : (st.chats.map StoredChat.name).getD i "" = (st.chats.getD i dummyChat).name := by
    rw [List.getD_eq_getElem _ _ (by omega), List.getD_eq_getElem _ _ hi]
    simp
  have hgj : (st.chats.map StoredChat.name).getD j "" = (st.chats.getD j dummyChat).name := by
    rw [List.getD_eq_getElem _ _ (by omega), List.getD_eq_getElem _ _ hj]
    simp
  have heq : (st.chats.map StoredChat.name).getD i "" =
      (st.chats.map StoredChat.name).getD j "" := by rw [hgi, hgj, hn]
  rw [List.getD_eq_getElem _ _ (by omega), List.getD_eq_getElem _ _ (by omega)] at heq
  exact List.Nodup.getElem_inj_iff hnodup |>.1 heq

lemma entry_name_unique {st : ManagerState} (h : MgrInv st) {x : ChatIndex}
    {idx : Nat} (hx : x ∈ st.sortedIndices) (hidx : idx < st.chats.length)
    (hname : x.name = (st.chats.getD idx dummyChat).name) :
    x = entryOf st.chats idx := by
  have hmem : x ∈ canonEntries st.chats := h.2.2.2.mem_iff.1 hx
  obtain ⟨hlt, hfields⟩ := mem_canon_fields hmem
  have hnamex : (st.chats.getD x.index dummyChat).name = x.name :=
    (congrArg ChatIndex.name hfields).symm
  have : x.index = idx := chats_name_inj h hlt hidx (by rw [hnamex, hname])
  rw [hfields, this]

lemma canonMap_congr {A B : List StoredChat} (hlen : A.length = B.length)
    (hname : ∀ i, i < A.length →
      (A.getD i dummyChat).name = (B.getD i dummyChat).name) :
    canonMap A = canonMap B := by
  unfold canonMap
  rw [hlen]
  apply List.map_congr_left
  intro i hi
  rw [hname i (by rw [hlen]; exact List.mem_range.1 hi)]

end Chat

namespace Chat

lemma mgrInv_createNewChat (st : ManagerState) (now : Int) (name : String)
    (h : MgrInv st) : MgrInv (createNewChat st now name).1 := by
  unfold createNewChat
  have hfresh : (resolveUniqueName (st.chatNameToIndex.map Prod.fst) name name
      st.counter ((st.chatNameToIndex.map Prod.fst).length + 2)).1 ∉
      st.chatNameToIndex.map Prod.fst :=
    resolve_fresh _ name st.counter
  dsimp only
  split
  · exact h
  · apply mgrInv_switchToChat
    set newName := (resolveUniqueName (st.chatNameToIndex.map Prod.fst) name name
      st.counter ((st.chatNameToIndex.map Prod.fst).length + 2)).1 with hnn
    have hkeysperm : (st.chatNameToIndex.map Prod.fst).Perm
        (st.chats.map StoredChat.name) :=
      canonMap_keys st.chats ▸ (h.2.1.map Prod.fst)
    have hfresh2 : newName ∉ st.chats.map StoredChat.name :=
      fun hc => hfresh (hkeysperm.mem_iff.2 hc)
    refine ⟨?_, ?_, ?_, ?_⟩
    · show ((st.chats ++ [_]).map StoredChat.name).Nodup
      rw [List.map_append]
      rw [List.nodup_append]
      exact ⟨h.1, List.nodup_singleton _, by simpa using hfresh2⟩
    · show (amInsert st.chatNameToIndex newName st.chats.length).Perm
        (canonMap (st.chats ++ [_]))
      rw [amInsert_not_mem _ hfresh, canonMap_append]
      exact h.2.1.append_right _
    · exact chain_setInsert _ h.2.2.1
    · show (setInsert st.sortedIndices ⟨now, st.chats.length, newName⟩).Perm
        (canonEntries (st.chats ++ [_]))
      have hnoequiv : ∀ x ∈ st.sortedIndices,
          ¬ ciEquiv x ⟨now, st.chats.length, newName⟩ := by
        intro x hx hequiv
        obtain ⟨hlt, _, hnamex⟩ := entry_fields_of_inv h hx
        apply hfresh2
        rw [show newName = x.name from hequiv.2.symm, ← hnamex]
        exact List.mem_map.2 ⟨_, List.getD_eq_getElem _ _ hlt ▸ List.getElem_mem _, rfl⟩
      rw [canonEntries_append]
      exact (setInsert_perm hnoequiv).trans
        ((h.2.2.2.cons _).trans (List.perm_append_singleton _ _).symm)

end Chat

namespace Chat

lemma listModify_listModify {α : Type} (l : List α) (i : Nat) (f g : α → α) :
    listModify (listModify l i f) i g = listModify l i (fun x => g (f x)) := by
  induction l generalizing i with
  | nil => rfl
  | cons x xs ih =>
    cases i with
    | zero => rfl
    | succ j => simp [listModify, ih]

lemma mgrInv_update_entry (st : ManagerState) (idx : Nat) (now : Int)
    (F : StoredChat → StoredChat)
    (hFname : ∀ c, (F c).name = c.name)
    (hFlm : ∀ c, (F c).lastModified = now)
    (hidx : idx < st.chats.length) (h : MgrInv st) :
    MgrInv { st with
      chats := listModify st.chats idx F,
      sortedIndices := setInsert
        (setErase st.sortedIndices (entryOf st.chats idx))
        ⟨now, idx, (st.chats.getD idx dummyChat).name⟩ } := by
  obtain ⟨hnames, hmap, hchain, hperm⟩ := h
  have hinv : MgrInv st := ⟨hnames, hmap, hchain, hperm⟩
  have hlen2 : (listModify st.chats idx F).length = st.chats.length :=
    listModify_length st.chats idx F
  have hnamesEq : (listModify st.chats idx F).map StoredChat.name =
      st.chats.map StoredChat.name :=
    listModify_map st.chats idx F StoredChat.name hFname
  refine ⟨?_, ?_, ?_, ?_⟩
  · show ((listModify st.chats idx F).map StoredChat.name).Nodup
    rw [hnamesEq]
    exact hnames
  · show st.chatNameToIndex.Perm (canonMap (listModify st.chats idx F))
    rw [canonMap_congr hlen2 ?_]
    · exact hmap
    · intro i hi
      by_cases hie : i = idx
      · subst hie
        rw [getD_listModify_self _ _ _ (by omega)]
        exact hFname _
      · rw [getD_listModify_ne _ _ _ hie]
  · exact chain_setInsert _ (hchain.sublist (setErase_sublist _ _))
  · show (setInsert (setErase st.sortedIndices (entryOf st.chats idx))
        ⟨now, idx, (st.chats.getD idx dummyChat).name⟩).Perm
      (canonEntries (listModify st.chats idx F))
    have hEoldCanon : entryOf st.chats idx ∈ canonEntries st.chats :=
      entryOf_mem_canon hidx
    have hEoldMem : entryOf st.chats idx ∈ st.sortedIndices :=
      hperm.mem_iff.2 hEoldCanon
    have huniq : ∀ x ∈ st.sortedIndices, ciEquiv x (entryOf st.chats idx) →
        x = entryOf st.chats idx :=
      fun x hx he => entry_name_unique hinv hx hidx he.2
    have hpermE : st.sortedIndices.Perm
        (entryOf st.chats idx :: setErase st.sortedIndices (entryOf st.chats idx)) :=
      setErase_perm hEoldMem huniq
    have hEoldNotin : entryOf st.chats idx ∉
        setErase st.sortedIndices (entryOf st.chats idx) :=
      (List.nodup_cons.1 ((hpermE.nodup_iff).1 (sorted_nodup hinv))).1
    have hErasePerm : (setErase st.sortedIndices (entryOf st.chats idx)).Perm
        ((canonEntries st.chats).erase (entryOf st.chats idx)) := by
      have h1 : (entryOf st.chats idx ::
          setErase st.sortedIndices (entryOf st.chats idx)).Perm
          (entryOf st.chats idx :: (canonEntries st.chats).erase (entryOf st.chats idx)) :=
        hpermE.symm.trans (hperm.trans (List.perm_cons_erase hEoldCanon))
      exact h1.cons_inv
    have hnoequiv : ∀ x ∈ setErase st.sortedIndices (entryOf st.chats idx),
        ¬ ciEquiv x ⟨now, idx, (st.chats.getD idx dummyChat).name⟩ := by
      intro x hx he
      have hxs : x ∈ st.sortedIndices := (setErase_sublist _ _).subset hx
      have hxeq : x = entryOf st.chats idx := entry_name_unique hinv hxs hidx he.2
      exact hEoldNotin (hxeq ▸ hx)
    have hInsPerm : (setInsert (setErase st.sortedIndices (entryOf st.chats idx))
        ⟨now, idx, (st.chats.getD idx dummyChat).name⟩).Perm
        (⟨now, idx, (st.chats.getD idx dummyChat).name⟩ ::
          setErase st.sortedIndices (entryOf st.chats idx)) :=
      setInsert_perm hnoequiv
    have hcanon2 : (canonEntries (listModify st.chats idx F)).Perm
        (⟨now, idx, (st.chats.getD idx dummyChat).name⟩ ::
          (canonEntries st.chats).erase (entryOf st.chats idx)) := by
      unfold canonEntries
      rw [hlen2]
      have hrange : (List.range st.chats.length).Perm
          (idx :: (List.range st.chats.length).erase idx) :=
        List.perm_cons_erase (List.mem_range.2 hidx)
      refine (hrange.map _).trans ?_
      rw [List.map_cons]
      have hhead : entryOf (listModify st.chats idx F) idx =
          ⟨now, idx, (st.chats.getD idx dummyChat).name⟩ := by
        unfold entryOf
        rw [getD_listModify_self _ _ _ hidx, hFlm, hFname]
      rw [hhead]
      have htail : ((List.range st.chats.length).erase idx).map
          (entryOf (listModify st.chats idx F)) =
          ((List.range st.chats.length).erase idx).map (entryOf st.chats) := by
        apply List.map_congr_left
        intro j hj
        have hjne : j ≠ idx := ((List.nodup_range _).mem_erase_iff.1 hj).1
        unfold entryOf
        rw [getD_listModify_ne _ _ _ hjne]
      rw [htail, List.map_erase (entryOf_injective st.chats)]
    exact hInsPerm.trans ((hErasePerm.cons _).trans hcanon2.symm)

lemma mgrInv_addMessageToCurrentChat (st : ManagerState) (now : Int)
    (message : StoredMessage) (h : MgrInv st) :
    MgrInv (addMessageToCurrentChat st now message) := by
  unfold addMessageToCurrentChat updateChatTimestamp
  dsimp only
  split
  · exact h
  · rename_i hguard
    simp only [Bool.or_eq_true, decide_eq_true_eq, not_or] at hguard
    have hidx : st.currentChatIndex < st.chats.length := by
      obtain ⟨h1, h2⟩ := hguard
      omega
    rw [listModify_listModify]
    exact mgrInv_update_entry st st.currentChatIndex now
      (fun x => { x with lastModified := now, messages := x.messages ++ [message] })
      (fun c => rfl) (fun c => rfl) hidx h

end Chat

namespace Chat

lemma mgrInv_runOps (st : ManagerState) (h : MgrInv st) (ops : List MgrOp) :
    MgrInv (runOps st ops) := by
  induction ops generalizing st with
  | nil => exact h
  | cons op rest ih =>
    cases op with
    | create now name => exact ih _ (mgrInv_createNewChat st now name h)
    | addCur now message => exact ih _ (mgrInv_addMessageToCurrentChat st now message h)

/-- Claim C8 (corrected, positive part): after every sequence of
`createNewChat` and `addMessageToCurrentChat` operations from a freshly
initialized store, `getChats()` lists the chats sorted by
(lastModified descending, name ascending) and contains each stored chat
exactly once (it is a permutation of the chat vector). -/
theorem c8_amended (now : Int) (ops : List MgrOp) :
    (getChats (runOps (initialManagerState now) ops)).Chain' chatKeyLt ∧
    (getChats (runOps (initialManagerState now) ops)).Perm
      (runOps (initialManagerState now) ops).chats :=
  have hinv := mgrInv_runOps _ (mgrInv_initial now) ops
  ⟨getChats_sorted hinv, getChats_perm hinv⟩

/-- Claim C8 counterexample: the by-name `addMessage` bumps `lastModified`
without reindexing `m_sortedIndices` (chat_manager.hpp lines 386-397), so
after createChat("A") and a by-name addMessage to "New_Chat", `getChats()`
is no longer sorted by (lastModified desc, name asc). -/
theorem c8_counterexample :
    ¬ (getChats (addMessage (createNewChat (initialManagerState 0) 1 "A").1 2
        "New_Chat" ⟨1, "user", "hi", ""⟩)).Chain' chatKeyLt := by
  rw [← isSortedBy_iff_chain]
  decide

/-- Claim C4 (corrected, positive part): in a freshly initialized store
(whatever the clock reads), the second `createChat("Report")` yields
"Report (1)" and both "Report" and "Report (1)" appear in `getChats()` —
because a fresh store's collision counter is 1. -/
theorem c4_amended (t0 t1 t2 : Int) :
    (createNewChat (createNewChat (initialManagerState t0) t1 "Report").1
      t2 "Report").2 = some "Report (1)" ∧
    "Report" ∈ (getChats (createNewChat (createNewChat (initialManagerState t0)
      t1 "Report").1 t2 "Report").1).map StoredChat.name ∧
    "Report (1)" ∈ (getChats (createNewChat (createNewChat (initialManagerState t0)
      t1 "Report").1 t2 "Report").1).map StoredChat.name := by
  have hinv : MgrInv (createNewChat (createNewChat (initialManagerState t0)
      t1 "Report").1 t2 "Report").1 :=
    mgrInv_createNewChat _ _ _ (mgrInv_createNewChat _ _ _ (mgrInv_initial t0))
  have hperm := (getChats_perm hinv).map StoredChat.name
  have hnames : ((createNewChat (createNewChat (initialManagerState t0)
      t1 "Report").1 t2 "Report").1).chats.map StoredChat.name =
      ["New_Chat", "Report", "Report (1)"] := rfl
  refine ⟨rfl, ?_, ?_⟩
  · exact hperm.mem_iff.2 (by rw [hnames]; simp)
  · exact hperm.mem_iff.2 (by rw [hnames]; simp)

/-- Claim C4 counterexample: the collision suffix uses the manager's
persistent counter, not a fresh per-call counter.  After two
`createChat("X")` calls the counter is 2, so in a store containing neither
"Report" nor "Report (1)" the second `createChat("Report")` returns
"Report (2)", not "Report (1)". -/
theorem c4_counterexample :
    "Report" ∉ ((createNewChat (createNewChat (initialManagerState 0) 1 "X").1
      2 "X").1).chats.map StoredChat.name ∧
    "Report (1)" ∉ ((createNewChat (createNewChat (initialManagerState 0) 1 "X").1
      2 "X").1).chats.map StoredChat.name ∧
    (createNewChat ((createNewChat (createNewChat (initialManagerState 0) 1 "X").1
      2 "X").1) 3 "Report").2 = some "Report" ∧
    (createNewChat (createNewChat ((createNewChat (createNewChat
      (initialManagerState 0) 1 "X").1 2 "X").1) 3 "Report").1 4 "Report").2 =
      some "Report (2)" ∧
    "Report (2)" ≠ "Report (1)" := by
  refine ⟨by decide, by decide, rfl, rfl, by decide⟩

end Chat

namespace Chat

lemma nameIndex_keys_nodup {st : ManagerState} (h : MgrInv st) :
    (st.chatNameToIndex.map Prod.fst).Nodup :=
  ((h.2.1.map Prod.fst).nodup_iff).2 (by rw [canonMap_keys]; exact h.1)

lemma amLookup_name_of_inv {st : ManagerState} (h : MgrInv st) {i : Nat}
    (hi : i < st.chats.length) :
    amLookup st.chatNameToIndex (st.chats.getD i dummyChat).name = some i := by
  refine amLookup_eq_some_of_mem (nameIndex_keys_nodup h) ?_
  exact h.2.1.mem_iff.2 (List.mem_map.2 ⟨i, List.mem_range.2 hi, rfl⟩)

/-- Claim C9: deleting the only remaining chat of a consistent store leaves
exactly one chat, the synthesized default chat, and `getCurrentChat()`
returns that default chat. -/
theorem c9_confirmed (st : ManagerState) (now : Int) (name : String)
    (hinv : MgrInv st) (hlen : st.chats.length = 1)
    (hname : name = (st.chats.getD 0 dummyChat).name) :
    (deleteChat st now name).1.chats = [defaultChat now] ∧
    getCurrentChat (deleteChat st now name).1 = some (defaultChat now) := by
  have hlook : amLookup st.chatNameToIndex name = some 0 := by
    rw [hname]; exact amLookup_name_of_inv hinv (by omega)
  obtain ⟨c, hc⟩ := List.length_eq_one.1 hlen
  obtain ⟨chats, nidx, si, cn, ci, jm, ctr⟩ := st
  simp only at hc hlook ⊢
  subst hc
  simp [deleteChat, hlook, updateIndicesAfterDeletion, createDefaultChat,
        getCurrentChat, defaultChatName]

/-- Witness for C9 at a freshly initialized store: its single chat is named
"New_Chat", and deleting it at time 5 synthesizes the default chat of
timestamp 5 and returns it as the current chat. -/
theorem c9_confirmed_witness :
    MgrInv (initialManagerState 0) ∧ (initialManagerState 0).chats.length = 1 ∧
    "New_Chat" = ((initialManagerState 0).chats.getD 0 dummyChat).name ∧
    ((deleteChat (initialManagerState 0) 5 "New_Chat").1.chats = [defaultChat 5] ∧
     getCurrentChat (deleteChat (initialManagerState 0) 5 "New_Chat").1 =
       some (defaultChat 5)) :=
  ⟨mgrInv_initial 0, rfl, rfl,
    c9_confirmed (initialManagerState 0) 5 "New_Chat" (mgrInv_initial 0) rfl rfl⟩

end Chat

namespace Chat

lemma deleteChat_jobMap (st : ManagerState) (now : Int) (name : String) :
    (deleteChat st now name).1.chatInferenceJobIdMap =
      st.chatInferenceJobIdMap := by
  cases hl : amLookup st.chatNameToIndex name with
  | none => simp [deleteChat, hl]
  | some p =>
    simp only [deleteChat, hl]
    split
    · rfl
    · split
      · split
        · exact (switchToChat_fields _ _).2.2.2
        · rfl
      · split
        · rfl
        · rfl

lemma deleteChat_nameIndex {st : ManagerState} {name : String} {p : Nat}
    (hl : amLookup st.chatNameToIndex name = some p)
    (hne : (st.chats.eraseIdx p).isEmpty = false) (now : Int) :
    (deleteChat st now name).1.chatNameToIndex =
      (amErase st.chatNameToIndex name).map
        (fun kv => if p < kv.2 then (kv.1, kv.2 - 1) else kv) := by
  simp only [deleteChat, hl]
  split
  · next hemp =>
    rw [show (updateIndicesAfterDeletion { st with
        sortedIndices := setErase st.sortedIndices
          ⟨(st.chats.getD p dummyChat).lastModified, p, name⟩,
        chats := st.chats.eraseIdx p,
        chatNameToIndex := amErase st.chatNameToIndex name } p).chats =
        st.chats.eraseIdx p from rfl, hne] at hemp
    exact absurd hemp (by simp)
  · split
    · split
      · exact (switchToChat_fields _ _).2.1
      · rfl
    · split
      · rfl
      · rfl

end Chat

namespace Chat

/-- Claim C3 (corrected): `updateIndicesAfterDeletion` never touches
`m_chatInferenceJobIdMap`, so after deleting the chat at position `p` a
chat that sat at a later position `q` resolves — through its shifted
name-index entry `q - 1` — to whatever the UNSHIFTED job map holds at
`q - 1` (`operator[]`-defaulting to 0), not to its own old job id. -/
theorem c3_amended (st : ManagerState) (now : Int) (p q : Nat)
    (hinv : MgrInv st) (hpq : p < q) (hq : q < st.chats.length) :
    getJobId (deleteChat st now ((st.chats.getD p dummyChat).name)).1
        ((st.chats.getD q dummyChat).name) =
      (jmLookup st.chatInferenceJobIdMap (q - 1)).getD 0 := by
  have hp : p < st.chats.length := by omega
  have hlookp : amLookup st.chatNameToIndex ((st.chats.getD p dummyChat).name) =
      some p := amLookup_name_of_inv hinv hp
  have hne : (st.chats.eraseIdx p).isEmpty = false := by
    cases h : (st.chats.eraseIdx p).isEmpty with
    | false => rfl
    | true =>
      have h0 := List.isEmpty_iff.1 h
      have hlen := List.length_eraseIdx_add_one hp
      rw [h0] at hlen
      simp at hlen
      omega
  have hnepq : (st.chats.getD q dummyChat).name ≠ (st.chats.getD p dummyChat).name := by
    intro he
    exact absurd (chats_name_inj hinv hq hp he) (by omega)
  have hmemq : ((st.chats.getD q dummyChat).name, q) ∈ st.chatNameToIndex :=
    hinv.2.1.mem_iff.2 (List.mem_map.2 ⟨q, List.mem_range.2 hq, rfl⟩)
  have hmemq' : ((st.chats.getD q dummyChat).name, q) ∈
      amErase st.chatNameToIndex ((st.chats.getD p dummyChat).name) :=
    mem_eraseP_of_mem_of_neg hmemq (by simpa using hnepq)
  have hmapped : ((st.chats.getD q dummyChat).name, q - 1) ∈
      (amErase st.chatNameToIndex ((st.chats.getD p dummyChat).name)).map
        (fun kv => if p < kv.2 then (kv.1, kv.2 - 1) else kv) :=
    List.mem_map.2 ⟨((st.chats.getD q dummyChat).name, q), hmemq', by
      simp [if_pos hpq]⟩
  have hkeys : (((amErase st.chatNameToIndex ((st.chats.getD p dummyChat).name)).map
      (fun kv => if p < kv.2 then (kv.1, kv.2 - 1) else kv)).map Prod.fst).Nodup := by
    have heq : ((amErase st.chatNameToIndex ((st.chats.getD p dummyChat).name)).map
        (fun kv => if p < kv.2 then (kv.1, kv.2 - 1) else kv)).map Prod.fst =
        (amErase st.chatNameToIndex ((st.chats.getD p dummyChat).name)).map Prod.fst := by
      rw [List.map_map]
      apply List.map_congr_left
      intro kv _
      simp only [Function.comp_apply]
      by_cases hc : p < kv.2 <;> simp [hc]
    rw [heq]
    exact (nameIndex_keys_nodup hinv).sublist
      ((List.eraseP_sublist _).map Prod.fst)
  have hlookq : amLookup ((amErase st.chatNameToIndex
      ((st.chats.getD p dummyChat).name)).map
        (fun kv => if p < kv.2 then (kv.1, kv.2 - 1) else kv))
      ((st.chats.getD q dummyChat).name) = some (q - 1) :=
    amLookup_eq_some_of_mem hkeys hmapped
  unfold getJobId
  rw [deleteChat_nameIndex hlookp hne now, hlookq, deleteChat_jobMap]

/-- Witness for C3 on the two-chat store `jobShiftState`: chat "B" at
position 1 holds job 7; after deleting "A" (position 0), getJobId("B")
reads the stale job map at position 0 and yields its default 0. -/
theorem c3_amended_witness :
    MgrInv jobShiftState ∧ 0 < 1 ∧ 1 < jobShiftState.chats.length ∧
    getJobId (deleteChat jobShiftState 20
        ((jobShiftState.chats.getD 0 dummyChat).name)).1
        ((jobShiftState.chats.getD 1 dummyChat).name) =
      (jmLookup jobShiftState.chatInferenceJobIdMap 0).getD 0 :=
  have hinv : MgrInv jobShiftState :=
    ⟨by decide, by decide, by rw [← isSortedBy_iff_chain]; decide, by decide⟩
  ⟨hinv, by decide, by decide,
    c3_amended jobShiftState 20 0 1 hinv (by decide) (by decide)⟩

/-- Claim C3 counterexample: in `jobShiftState` the chat "B" carries the
non-sentinel job id 7 at position 1; deleting "A" at position 0 makes
getJobId("B") return 0, not 7 — the running-job association is lost. -/
theorem c3_counterexample :
    getJobId jobShiftState "B" = 7 ∧
    getJobId (deleteChat jobShiftState 20 "A").1 "B" = 0 ∧
    (7 : Int) ≠ 0 :=
  ⟨rfl, rfl, by decide⟩

end Chat
